import Mathlib

set_option linter.unusedVariables false

/-!
# A verification model of the `minit` menu library (GTK backend)

This file embeds the core data model and operations of the `minit`
repository (a Rust menu-abstraction library over GTK 4) in Lean and
proves properties of that embedding.  Rust strings are modelled as
`List Char`; the shared mutable object graph (`Rc<RefCell<MenuChild>>`
nodes, root `Menu` values, `gio::Menu` contents, stateful GTK actions
and the global id counter) is modelled by an explicit state record `St`
threaded through every operation; Rust `Result` values, Rust panics
(`todo!()`, `unreachable!()`, `Vec` index panics) and exhaustion of the
model's recursion fuel are distinguished by the `Res` outcome type.
-/

namespace Minit

/-! ## Rust strings and `str::replace`

`src/platform_impl/gtk/accelerator.rs` and `src/items/compat.rs` use
`str::replace`, which replaces every non-overlapping occurrence of a
pattern, scanning left to right.  We model strings as `List Char`.
-/

/-- Rust `str::replace` on character lists: replace every
non-overlapping occurrence of `pat` (scanning left to right) by `rep`.
Every pattern used by the source is nonempty; for an empty pattern this
model returns the string unchanged. -/
def replaceAll (pat rep : List Char) : List Char → List Char
  | [] => []
  | c :: rest =>
    if _h : pat ≠ [] ∧ pat.isPrefixOf (c :: rest) then
      rep ++ replaceAll pat rep (List.drop (pat.length - 1) rest)
    else
      c :: replaceAll pat rep rest
termination_by s => s.length
decreasing_by
  · simp only [List.length_cons, List.length_drop]
    omega
  · simp only [List.length_cons]
    omega

/-- `to_gtk_mnemonic` from `src/platform_impl/gtk/accelerator.rs`:
escape underlines (`_` → `__`), preserve `&&` via the sentinel `[~~]`,
transform `&` → `_`, then revert the sentinel back to `&`. -/
def to_gtk_mnemonic (s : List Char) : List Char :=
  replaceAll ['[', '~', '~', ']'] ['&']
    (replaceAll ['&'] ['_']
      (replaceAll ['&', '&'] ['[', '~', '~', ']']
        (replaceAll ['_'] ['_', '_'] s)))

/-- `from_gtk_mnemonic` from `src/platform_impl/gtk/accelerator.rs`:
transform `&` → `&&`, preserve `__` via the sentinel `[~~]`, transform
`_` → `&`, then revert the sentinel back to `_`. -/
def from_gtk_mnemonic (s : List Char) : List Char :=
  replaceAll ['[', '~', '~', ']'] ['_']
    (replaceAll ['_'] ['&']
      (replaceAll ['_', '_'] ['[', '~', '~', ']']
        (replaceAll ['&'] ['&', '&'] s)))

/-- `strip_accelerator` from `src/items/compat.rs`:
`text.as_ref().replace('&', "")`. -/
def strip_accelerator (text : List Char) : List Char :=
  replaceAll ['&'] [] text

/-! Sanity checks: the assertions of the repository's own test module
(`tests::it_converts` and `tests::it_converts_back` in
`src/platform_impl/gtk/accelerator.rs`) hold of the embedding. -/

theorem it_converts_sample₁ : to_gtk_mnemonic "H&ello".data = "H_ello".data := by
  simp [to_gtk_mnemonic, replaceAll, List.isPrefixOf]

theorem it_converts_sample₂ : to_gtk_mnemonic "H&&ello".data = "H&ello".data := by
  simp [to_gtk_mnemonic, replaceAll, List.isPrefixOf]

theorem it_converts_sample₃ : to_gtk_mnemonic "H&&&ello".data = "H&_ello".data := by
  simp [to_gtk_mnemonic, replaceAll, List.isPrefixOf]

theorem it_converts_sample₄ : to_gtk_mnemonic "H_ello".data = "H__ello".data := by
  simp [to_gtk_mnemonic, replaceAll, List.isPrefixOf]

theorem it_converts_back_sample₁ :
    from_gtk_mnemonic (to_gtk_mnemonic "H&ello".data) = "H&ello".data := by
  simp [to_gtk_mnemonic, from_gtk_mnemonic, replaceAll, List.isPrefixOf]

theorem it_converts_back_sample₂ :
    from_gtk_mnemonic (to_gtk_mnemonic "H__ello".data) = "H__ello".data := by
  simp [to_gtk_mnemonic, from_gtk_mnemonic, replaceAll, List.isPrefixOf]

/-- The claim of a universal mnemonic round-trip fails on the code: for
the input `"&_"` (a mnemonic marker directly followed by the backend's
native marker character), converting to the GTK underscore form yields
`"___"`, and converting back regroups the underscores wrongly, yielding
`"_&"` instead of the original `"&_"`. -/
theorem c1_mnemonic_roundtrip_failing_input :
    to_gtk_mnemonic "&_".data = "___".data ∧
      from_gtk_mnemonic (to_gtk_mnemonic "&_".data) = "_&".data ∧
      from_gtk_mnemonic (to_gtk_mnemonic "&_".data) ≠ "&_".data := by
  refine ⟨?_, ?_, ?_⟩ <;>
    simp [to_gtk_mnemonic, from_gtk_mnemonic, replaceAll, List.isPrefixOf]

/-- A second round-trip failure: an input that literally contains the
sentinel `[~~]` used internally by the conversion is corrupted into
`"&"`, which converts back to `"&&"`. -/
theorem mnemonic_roundtrip_fails_on_sentinel :
    to_gtk_mnemonic "[~~]".data = "&".data ∧
      from_gtk_mnemonic (to_gtk_mnemonic "[~~]".data) = "&&".data := by
  constructor <;>
    simp [to_gtk_mnemonic, from_gtk_mnemonic, replaceAll, List.isPrefixOf]

/-- String-level wrapper for `to_gtk_mnemonic`. -/
def to_gtk_mnemonicS (s : String) : String := ⟨to_gtk_mnemonic s.data⟩

/-- String-level wrapper for `strip_accelerator`. -/
def strip_acceleratorS (s : String) : String := ⟨strip_accelerator s.data⟩

/-! ## The data model

Value types of the crate.  `MenuId` is a newtype over `String`
(generated from the global counter when the caller supplies none), so we
use `String` directly.  The `Accelerator` value type (crate-level
`accelerator.rs` is not among the sources) is an opaque pair of optional
modifiers and a key code, exactly the shape used by
`PredefinedMenuItemKind::accelerator` in `src/items/predefined.rs`.
Platform-conditional code (`cfg`) is taken in its Linux/GTK form
throughout, matching the GTK backend under verification. -/

/-- The key codes from `keyboard_types::Code` used by the Linux branches
of `PredefinedMenuItemKind::accelerator`. -/
inductive Code where
  | keyC | keyX | keyV | keyZ | keyY | keyA | keyM | keyH | f4
deriving DecidableEq, Repr

/-- `keyboard_types::Modifiers` (bitflags), restricted to the flags the
source mentions. -/
structure Modifiers where
  ctrl : Bool := false
  shift : Bool := false
  alt : Bool := false
  meta : Bool := false
deriving DecidableEq, Repr

/-- `CMD_OR_CTRL` from `src/accelerator.rs` usage: `CONTROL` on Linux. -/
def CMD_OR_CTRL : Modifiers := { ctrl := true }

/-- The opaque `Accelerator` value type: optional modifiers plus a key
code, constructed by `Accelerator::new(mods, code)`. -/
structure Accelerator where
  mods : Option Modifiers
  key : Code
deriving DecidableEq, Repr

/-- `Accelerator::new`. -/
def Accelerator.new (mods : Option Modifiers) (key : Code) : Accelerator :=
  ⟨mods, key⟩

/-- `AboutMetadata`: opaque pass-through data carried by
`PredefinedMenuItemKind::About`; no claim inspects it. -/
structure AboutMetadata where
deriving DecidableEq, Repr

/-- `PredefinedMenuItemKind` from `src/items/predefined.rs`. -/
inductive PredefinedMenuItemKind where
  | separator
  | copy
  | cut
  | paste
  | selectAll
  | undo
  | redo
  | minimize
  | maximize
  | fullscreen
  | hide
  | hideOthers
  | showAll
  | closeWindow
  | quit
  | about (metadata : Option AboutMetadata)
  | services
  | bringAllToFront
  | none
deriving DecidableEq, Repr

/-- `PredefinedMenuItemKind::text` (`src/items/predefined.rs`), taking
the non-Windows / non-macOS (`cfg`) branches. -/
def PredefinedMenuItemKind.text : PredefinedMenuItemKind → String
  | .separator => ""
  | .copy => "&Copy"
  | .cut => "Cu&t"
  | .paste => "&Paste"
  | .selectAll => "Select &All"
  | .undo => "Undo"
  | .redo => "Redo"
  | .minimize => "&Minimize"
  | .maximize => "Ma&ximize"
  | .fullscreen => "Toggle Full Screen"
  | .hide => "&Hide"
  | .hideOthers => "Hide Others"
  | .showAll => "Show All"
  | .closeWindow => "C&lose Window"
  | .quit => "&Quit"
  | .about _ => "&About"
  | .services => "Services"
  | .bringAllToFront => "Bring All to Front"
  | .none => ""

/-- `PredefinedMenuItemKind::accelerator` (`src/items/predefined.rs`),
taking the non-macOS (`cfg`) branches: on Linux, `Fullscreen`, `Quit`
and the catch-all arm yield `None`. -/
def PredefinedMenuItemKind.accelerator :
    PredefinedMenuItemKind → Option Accelerator
  | .copy => some (Accelerator.new (some CMD_OR_CTRL) .keyC)
  | .cut => some (Accelerator.new (some CMD_OR_CTRL) .keyX)
  | .paste => some (Accelerator.new (some CMD_OR_CTRL) .keyV)
  | .undo => some (Accelerator.new (some CMD_OR_CTRL) .keyZ)
  | .redo => some (Accelerator.new (some CMD_OR_CTRL) .keyY)
  | .selectAll => some (Accelerator.new (some CMD_OR_CTRL) .keyA)
  | .minimize => some (Accelerator.new (some CMD_OR_CTRL) .keyM)
  | .hide => some (Accelerator.new (some CMD_OR_CTRL) .keyH)
  | .hideOthers =>
      some (Accelerator.new (some { ctrl := true, alt := true }) .keyH)
  | .closeWindow => some (Accelerator.new (some { alt := true }) .f4)
  | _ => Option.none

/-- `MenuItemType`, as dispatched on by `make_gtk_menu_item` in
`src/platform_impl/gtk/mod.rs`. -/
inductive MenuItemType where
  | menuItem | submenu | predefined | check | icon
deriving DecidableEq, Repr

/-- Modelled from the spec: the crate-level error enum (the crate root
and `error.rs` are not among the sources).  Variants follow the spec's
failure-mode taxonomy (§7) and the constructors used by
`src/platform_impl/gtk/mod.rs` (`AlreadyInitialized`,
`GtkWindowWithoutApplication`). -/
inductive MudaError where
  | alreadyInitialized
  | gtkWindowWithoutApplication
  | invalidIndex
  | backendOperationFailed
deriving DecidableEq, Repr

/-- An opaque icon value (`Icon` / its encoded bytes); claims treat it
as pass-through data. -/
structure Icon where
  bytes : List Nat
deriving DecidableEq, Repr

/-- `AddOp` (from the missing `util.rs`, modelled from its uses in
`src/platform_impl/gtk/mod.rs`): append, or insert at an index. -/
inductive AddOp where
  | append
  | insert (i : Nat)
deriving DecidableEq, Repr

/-- The attribute set of one `gio::MenuItem` as this code constructs it:
a label (already in GTK mnemonic form), an optional detailed action
string, an optional linked submenu (`gio::Menu` reference), and an
optional icon. -/
structure GioItem where
  label : String
  action : Option String
  submenuRef : Option Nat
  icon : Option Icon
deriving DecidableEq, Repr

/-- `GtkMenuChild` from `src/platform_impl/gtk/mod.rs`: one
backend-native instance of a logical node.  GTK widget handles that the
model does not observe (the `PopoverMenu` widget of `ContextMenu`) are
omitted. -/
inductive GtkMenuChild where
  | item (it : GioItem)
  | checkItem (it : GioItem) (actionRef : Nat)
  | submenu (id : Nat) (it : GioItem) (menuRef : Nat) (app : Nat)
  | contextMenu (id : Nat) (menuRef : Nat) (app : Nat)
deriving DecidableEq, Repr

/-- `GtkMenuChild::id`: defined for `Submenu` and `ContextMenu`,
`unreachable!()` (modelled as `none`) otherwise. -/
def GtkMenuChild.gtkId : GtkMenuChild → Option Nat
  | .submenu id _ _ _ => some id
  | .contextMenu id _ _ => some id
  | _ => Option.none

/-- `GtkMenuChild::application`: defined for `Submenu` and
`ContextMenu`, `unreachable!()` otherwise. -/
def GtkMenuChild.appRef : GtkMenuChild → Option Nat
  | .submenu _ _ _ app => some app
  | .contextMenu _ _ app => some app
  | _ => Option.none

/-- `GtkMenuChild::menu`: defined for `Submenu` and `ContextMenu`,
`unreachable!()` otherwise. -/
def GtkMenuChild.menuRef : GtkMenuChild → Option Nat
  | .submenu _ _ menu _ => some menu
  | .contextMenu _ menu _ => some menu
  | _ => Option.none

/-- `GtkMenuBar` from `src/platform_impl/gtk/mod.rs`: the root backend
instance registered per attachment (a menu-bar widget or a context
popover, each over a fresh `gio::Menu`).  Widgets are omitted. -/
inductive GtkMenuBar where
  | menuBar (menuRef : Nat) (app : Nat)
  | contextMenu (menuRef : Nat) (app : Nat)
deriving DecidableEq, Repr

/-- `GtkMenuBar::applicaiton` (sic): total over both variants. -/
def GtkMenuBar.app : GtkMenuBar → Nat
  | .menuBar _ a => a
  | .contextMenu _ a => a

/-- `GtkMenuBar::menu`: total over both variants. -/
def GtkMenuBar.menu : GtkMenuBar → Nat
  | .menuBar m _ => m
  | .contextMenu m _ => m

/-- Whether a `GtkMenuBar` is the `MenuBar` variant (`menu_bar()` is
`unreachable!()` on `ContextMenu`). -/
def GtkMenuBar.isBar : GtkMenuBar → Bool
  | .menuBar _ _ => true
  | .contextMenu _ _ => false

/-- `MenuChild` from `src/platform_impl/gtk/mod.rs`: the single mutable
entity behind every item handle.  `instances` is the
`HashMap<u32, Vec<GtkMenuChild>>` of backend instances keyed by the id
of the containing backend menu; `children` holds references into the
node heap (`Rc<RefCell<MenuChild>>` pointers).

The field `predefinedItemKind` is modelled from the spec: it is read by
`src/items/predefined.rs` and `src/items/compat.rs` but missing from
the GTK `MenuChild` struct in the sources; per the spec (§4.6) a
predefined node is annotated with which predefined action it
represents. -/
structure MenuChild where
  id : String
  text : String
  enabled : Bool
  accelerator : Option Accelerator
  checked : Bool
  icon : Option Icon
  type_ : MenuItemType
  predefinedItemKind : Option PredefinedMenuItemKind
  instances : List (Nat × List GtkMenuChild)
  ctxMenuId : Nat
  children : List Nat
deriving DecidableEq, Repr

/-- `Menu` (the root container) from `src/platform_impl/gtk/mod.rs`. -/
structure Menu where
  id : String
  instances : List (Nat × GtkMenuBar)
  ctxMenuId : Nat
  children : List Nat
deriving DecidableEq, Repr

/-- The window collaborator: a stable native identity
(`window.as_ptr() as u32`) and the result of `window.application()`
(an application reference, or `None`). -/
structure Window where
  ptrId : Nat
  app : Option Nat
deriving DecidableEq, Repr

/-- The machine state: the global id counter, the heap of shared
`MenuChild` nodes, the heap of root `Menu` values, the contents of every
live `gio::Menu`, and the boolean states of the stateful
`gio::SimpleAction`s created for check items. -/
structure St where
  counter : Nat
  nodes : List (Nat × MenuChild)
  nextNode : Nat
  menus : List (Nat × Menu)
  nextMenu : Nat
  gioMenus : List (Nat × List GioItem)
  nextGio : Nat
  actions : List (Nat × Bool)
  nextAction : Nat
deriving DecidableEq, Repr

/-- The outcome of running an operation: a normal return with a value
and the updated state, an `Err` return (Rust `Result`) with the state as
mutated so far, a Rust panic (`todo!()`, `unreachable!()`, out-of-bounds
`Vec::insert`, failed `unwrap`) with the state as mutated so far, or
exhaustion of the model's recursion fuel (an artifact of the embedding,
never corresponding to a source behaviour). -/
inductive Res (α : Type) where
  | ok : α → St → Res α
  | err : MudaError → St → Res α
  | panicked : St → Res α
  | nofuel : Res α
deriving DecidableEq, Repr

/-- Whether an outcome is a normal return. -/
def Res.is_ok {α : Type} : Res α → Bool
  | .ok _ _ => true
  | _ => false

/-- Whether an outcome is a Rust panic. -/
def Res.is_panicked {α : Type} : Res α → Bool
  | .panicked _ => true
  | _ => false

/-! ## Association-list primitives

`HashMap<u32, _>` maps and the heaps of shared objects are modelled as
association lists with `Nat` keys; insertion of a fresh key appends at
the end, so iteration order is insertion order (one of the orders a
`HashMap` may exhibit). -/

/-- Look up a key. -/
def afind {α : Type} : List (Nat × α) → Nat → Option α
  | [], _ => Option.none
  | (k, v) :: rest, key => if k = key then some v else afind rest key

/-- Update the value at a key, or append a fresh entry. -/
def aset {α : Type} : List (Nat × α) → Nat → α → List (Nat × α)
  | [], key, v => [(key, v)]
  | (k, w) :: rest, key, v =>
    if k = key then (key, v) :: rest else (k, w) :: aset rest key v

/-- `map.entry(key).or_default().push(x)`. -/
def apush {α : Type} (l : List (Nat × List α)) (key : Nat) (x : α) :
    List (Nat × List α) :=
  match afind l key with
  | some xs => aset l key (xs ++ [x])
  | Option.none => aset l key [x]

/-- Sequencing of outcomes: on a normal return, continue with the value
and the updated state; `Err` returns, panics and fuel exhaustion
propagate (Rust `?` / unwinding), keeping the state as mutated so
far. -/
def Res.bind {α β : Type} (x : Res α) (f : α → St → Res β) : Res β :=
  match x with
  | .ok a st => f a st
  | .err e st => .err e st
  | .panicked st => .panicked st
  | .nofuel => .nofuel

/-! ## State primitives -/

/-- `COUNTER.next()`: modelled from the spec ( `util::Counter` is not
among the sources): returns the current value of the process-wide
counter and increments it, so ids handed out in sequence are
distinct. -/
def counter_next (st : St) : Nat × St :=
  (st.counter, { st with counter := st.counter + 1 })

/-- Allocate a shared `MenuChild` cell (`Rc::new(RefCell::new(inner))`). -/
def allocNode (n : MenuChild) (st : St) : Nat × St :=
  (st.nextNode,
    { st with nodes := aset st.nodes st.nextNode n, nextNode := st.nextNode + 1 })

/-- Allocate a shared root `Menu` cell. -/
def allocMenu (m : Menu) (st : St) : Nat × St :=
  (st.nextMenu,
    { st with menus := aset st.menus st.nextMenu m, nextMenu := st.nextMenu + 1 })

/-- `gio::Menu::new()`: a fresh, empty native menu. -/
def gioNewMenu (st : St) : Nat × St :=
  (st.nextGio,
    { st with gioMenus := aset st.gioMenus st.nextGio [], nextGio := st.nextGio + 1 })

/-- `gio::SimpleAction::new_stateful(name, None, state)`: a fresh
stateful action holding a boolean state. -/
def actionNewStateful (b : Bool) (st : St) : Nat × St :=
  (st.nextAction,
    { st with actions := aset st.actions st.nextAction b,
              nextAction := st.nextAction + 1 })

/-- Dereference an `Rc<RefCell<MenuChild>>`; a dangling reference cannot
occur in the Rust source, so it is modelled as a panic. -/
def getNode (r : Nat) (st : St) : Res MenuChild :=
  match afind st.nodes r with
  | some n => .ok n st
  | Option.none => .panicked st

/-- Write back a `MenuChild` cell. -/
def setNode (r : Nat) (n : MenuChild) (st : St) : St :=
  { st with nodes := aset st.nodes r n }

/-- Dereference a root `Menu` cell. -/
def getMenu (r : Nat) (st : St) : Res Menu :=
  match afind st.menus r with
  | some m => .ok m st
  | Option.none => .panicked st

/-- Write back a root `Menu` cell. -/
def setMenu (r : Nat) (m : Menu) (st : St) : St :=
  { st with menus := aset st.menus r m }

/-- `gio::Menu::append_item`. -/
def gioAppendItem (menuRef : Nat) (it : GioItem) (st : St) : Res Unit :=
  match afind st.gioMenus menuRef with
  | some l => .ok () { st with gioMenus := aset st.gioMenus menuRef (l ++ [it]) }
  | Option.none => .panicked st

/-- The Rust cast `position as i32` on a `usize`. -/
def intoI32 (n : Nat) : Int :=
  (((n : Int) + 2 ^ 31) % 2 ^ 32) - 2 ^ 31

/-- `gio::Menu::insert_item(position, item)`: per the GMenu contract, a
negative position or one greater than the number of items appends. -/
def gioInsertItem (menuRef : Nat) (pos : Int) (it : GioItem) (st : St) :
    Res Unit :=
  match afind st.gioMenus menuRef with
  | some l =>
    let l' :=
      if 0 ≤ pos ∧ pos ≤ (l.length : Int) then l.insertIdx pos.toNat it
      else l ++ [it]
    .ok () { st with gioMenus := aset st.gioMenus menuRef l' }
  | Option.none => .panicked st

/-- `Vec::insert(index, x)`: shifts the suffix; panics (`none`) when
`index > len`. -/
def vec_insert {α : Type} (l : List α) (i : Nat) (x : α) : Option (List α) :=
  if i ≤ l.length then some (l.insertIdx i x) else Option.none

/-! ## Constructors (`MenuChild::new*`, items layer) -/

/-- `DEFAULT_ACTION_GROUP` from `src/platform_impl/gtk/mod.rs`. -/
def DEFAULT_ACTION_GROUP : String := "muda"

/-- `DEFAULT_DETAILED_ACTION` from `src/platform_impl/gtk/mod.rs`. -/
def DEFAULT_DETAILED_ACTION : String := "muda._internal_sendEvent"

/-- `MenuChild::new` (a plain menu item). -/
def MenuChild.new (text : String) (enabled : Bool)
    (accelerator : Option Accelerator) (id : Option String) (st : St) :
    MenuChild × St :=
  let (idv, st) :=
    match id with
    | some i => (i, st)
    | Option.none => let (c, st) := counter_next st; (toString c, st)
  ({ id := idv, text := text, enabled := enabled, accelerator := accelerator,
     checked := false, icon := Option.none, type_ := .menuItem,
     predefinedItemKind := Option.none, ctxMenuId := 0, instances := [],
     children := [] }, st)

/-- `MenuChild::new_submenu`. -/
def MenuChild.new_submenu (text : String) (enabled : Bool)
    (id : Option String) (st : St) : MenuChild × St :=
  let (idv, st) :=
    match id with
    | some i => (i, st)
    | Option.none => let (c, st) := counter_next st; (toString c, st)
  let (ctx, st) := counter_next st
  ({ id := idv, text := text, enabled := enabled, accelerator := Option.none,
     checked := false, icon := Option.none, type_ := .submenu,
     predefinedItemKind := Option.none, ctxMenuId := ctx, instances := [],
     children := [] }, st)

/-- `MenuChild::new_check`. -/
def MenuChild.new_check (text : String) (enabled checked : Bool)
    (accelerator : Option Accelerator) (id : Option String) (st : St) :
    MenuChild × St :=
  let (idv, st) :=
    match id with
    | some i => (i, st)
    | Option.none => let (c, st) := counter_next st; (toString c, st)
  ({ id := idv, text := text, enabled := enabled, accelerator := accelerator,
     checked := checked, icon := Option.none, type_ := .check,
     predefinedItemKind := Option.none, ctxMenuId := 0, instances := [],
     children := [] }, st)

/-- `MenuChild::new_icon`. -/
def MenuChild.new_icon (text : String) (enabled : Bool) (icon : Option Icon)
    (accelerator : Option Accelerator) (id : Option String) (st : St) :
    MenuChild × St :=
  let (idv, st) :=
    match id with
    | some i => (i, st)
    | Option.none => let (c, st) := counter_next st; (toString c, st)
  ({ id := idv, text := text, enabled := enabled, accelerator := accelerator,
     checked := false, icon := icon, type_ := .icon,
     predefinedItemKind := Option.none, ctxMenuId := 0, instances := [],
     children := [] }, st)

/-- `MenuChild::new_predefined`: the text defaults to
`item_type.text()` unless overridden; the `accelerator` field is set to
`None` by the source.  The stored kind (`predefinedItemKind`) is
modelled from the spec, since the field itself is missing from the GTK
`MenuChild` struct in the sources although the items layer reads it. -/
def MenuChild.new_predefined (itemType : PredefinedMenuItemKind)
    (text : Option String) (st : St) : MenuChild × St :=
  let (c, st) := counter_next st
  ({ id := toString c, text := text.getD itemType.text, enabled := true,
     accelerator := Option.none, checked := false, icon := Option.none,
     type_ := .predefined, predefinedItemKind := some itemType,
     ctxMenuId := 0, instances := [], children := [] }, st)

/-- The `CheckMenuItem` handle from `src/items/check.rs`: a shared id
and a shared reference to the inner `MenuChild`. -/
structure CheckMenuItem where
  id : String
  innerRef : Nat
deriving DecidableEq, Repr

/-- `CheckMenuItem::new`. -/
def CheckMenuItem.new (text : String) (enabled checked : Bool)
    (accelerator : Option Accelerator) (st : St) : CheckMenuItem × St :=
  let (inner, st) := MenuChild.new_check text enabled checked accelerator
    Option.none st
  let (r, st) := allocNode inner st
  ({ id := inner.id, innerRef := r }, st)

/-- `CheckMenuItem::with_id`. -/
def CheckMenuItem.with_id (idv : String) (text : String)
    (enabled checked : Bool) (accelerator : Option Accelerator) (st : St) :
    CheckMenuItem × St :=
  let (inner, st) := MenuChild.new_check text enabled checked accelerator
    (some idv) st
  let (r, st) := allocNode inner st
  ({ id := idv, innerRef := r }, st)

/-- `Menu::new`: the root container, allocated as a shared cell (the
public crate `Menu` type wraps the platform `Menu` in a shared cell;
that wrapper file is not among the sources). -/
def Menu.new (id : Option String) (st : St) : Nat × St :=
  let (idv, st) :=
    match id with
    | some i => (i, st)
    | Option.none => let (c, st) := counter_next st; (toString c, st)
  let (ctx, st) := counter_next st
  allocMenu { id := idv, instances := [], ctxMenuId := ctx, children := [] } st

/-! ## Backend materialization (`make_gtk_menu_item` and helpers)

`make_gtk_menu_item` recurses through submenus; the model bounds that
recursion by a fuel parameter (`Res.nofuel` marks exhaustion, an
artifact never corresponding to a source behaviour).  The helpers take
the recursive function as a parameter `mk`. -/

/-- `MenuChild::create_gtk_item_for_menu_item`: a `gio::MenuItem` with
the mnemonic-converted label and the detailed action
`muda._internal_sendEvent::<id>`, recorded under the containing menu's
id. -/
def create_gtk_item_for_menu_item (r menuId : Nat) (st : St) : Res GioItem :=
  (getNode r st).bind fun n st =>
    let it : GioItem :=
      { label := to_gtk_mnemonicS n.text,
        action := some (DEFAULT_DETAILED_ACTION ++ "::" ++ n.id),
        submenuRef := Option.none, icon := Option.none }
    .ok it (setNode r { n with instances := apush n.instances menuId (.item it) } st)

/-- `MenuChild::create_gtk_item_for_check_menu_item`: a `gio::MenuItem`
with action `muda.<id>` plus a fresh stateful `SimpleAction` initialized
from the node's canonical `checked` flag (the action-group registration
and the state-notify event hookup are external). -/
def create_gtk_item_for_check_menu_item (r app menuId : Nat) (st : St) :
    Res GioItem :=
  (getNode r st).bind fun n st =>
    let it : GioItem :=
      { label := to_gtk_mnemonicS n.text,
        action := some (DEFAULT_ACTION_GROUP ++ "." ++ n.id),
        submenuRef := Option.none, icon := Option.none }
    let (aref, st) := actionNewStateful n.checked st
    .ok it
      (setNode r { n with instances := apush n.instances menuId (.checkItem it aref) } st)

/-- `MenuChild::create_gtk_item_for_icon_menu_item`: like a plain item,
plus `set_icon` when the node has one. -/
def create_gtk_item_for_icon_menu_item (r menuId : Nat) (st : St) :
    Res GioItem :=
  (getNode r st).bind fun n st =>
    let it : GioItem :=
      { label := to_gtk_mnemonicS n.text,
        action := some (DEFAULT_DETAILED_ACTION ++ "::" ++ n.id),
        submenuRef := Option.none, icon := n.icon }
    .ok it (setNode r { n with instances := apush n.instances menuId (.item it) } st)

/-- The inner loop of `MenuChild::add_menu_item_with_id`: over one
`Vec<GtkMenuChild>`, the filter evaluates `m.id()` on every element
(`unreachable!()` on leaf variants); for each element whose id matches,
make a backend item for `itemRef` and append it into that element's
`gio::Menu`. -/
def with_id_elems_loop (mk : Nat → Nat → Nat → St → Res GioItem)
    (itemRef targetId : Nat) : List GtkMenuChild → St → Res Unit
  | [], st => .ok () st
  | g :: gs, st =>
    match g.gtkId with
    | Option.none => .panicked st
    | some gid =>
      if gid = targetId then
        match g.appRef, g.menuRef with
        | some app, some menu =>
          (mk itemRef app gid st).bind fun it st =>
            (gioAppendItem menu it st).bind fun _ st =>
              with_id_elems_loop mk itemRef targetId gs st
        | _, _ => .panicked st
      else with_id_elems_loop mk itemRef targetId gs st

/-- The outer loop of `MenuChild::add_menu_item_with_id`: over
`self.instances.values()`. -/
def with_id_vecs_loop (mk : Nat → Nat → Nat → St → Res GioItem)
    (itemRef targetId : Nat) : List (Nat × List GtkMenuChild) → St → Res Unit
  | [], st => .ok () st
  | (_, gs) :: rest, st =>
    (with_id_elems_loop mk itemRef targetId gs st).bind fun _ st =>
      with_id_vecs_loop mk itemRef targetId rest st

/-- `MenuChild::add_menu_item_with_id`. -/
def MenuChild.add_menu_item_with_id (mk : Nat → Nat → Nat → St → Res GioItem)
    (selfRef itemRef targetId : Nat) (st : St) : Res Unit :=
  (getNode selfRef st).bind fun n st =>
    with_id_vecs_loop mk itemRef targetId n.instances st

/-- The `for item in self.items()` loop of
`create_gtk_item_for_submenu`: recursively add each logical child into
the freshly created backend submenu (errors propagate via `?`). -/
def submenu_items_loop (mk : Nat → Nat → Nat → St → Res GioItem)
    (selfRef targetId : Nat) : List Nat → St → Res Unit
  | [], st => .ok () st
  | c :: cs, st =>
    (MenuChild.add_menu_item_with_id mk selfRef c targetId st).bind fun _ st =>
      submenu_items_loop mk selfRef targetId cs st

/-- `MenuChild::create_gtk_item_for_submenu`: a fresh `gio::Menu`, a
`gio::MenuItem` linking it as a submenu, a fresh instance id from the
counter, registration of the instance, then recursive population from
the logical children. -/
def create_gtk_item_for_submenu (mk : Nat → Nat → Nat → St → Res GioItem)
    (selfRef app menuId : Nat) (st : St) : Res GioItem :=
  let (menu, st) := gioNewMenu st
  (getNode selfRef st).bind fun n st =>
    let it : GioItem :=
      { label := to_gtk_mnemonicS n.text, action := Option.none,
        submenuRef := some menu, icon := Option.none }
    let (id, st) := counter_next st
    let st := setNode selfRef
      { n with instances := apush n.instances menuId (.submenu id it menu app) } st
    (getNode selfRef st).bind fun n' st =>
      (submenu_items_loop mk selfRef id n'.children st).bind fun _ st =>
        .ok it st

/-- `<dyn IsMenuItem>::make_gtk_menu_item`: dispatch on the node's
`item_type()`.  The `Predefined` arm is `todo!()` in the source and
panics. -/
def make_gtk_menu_item (fuel : Nat) : Nat → Nat → Nat → St → Res GioItem :=
  Nat.rec (motive := fun _ => Nat → Nat → Nat → St → Res GioItem)
    (fun _ _ _ _ => .nofuel)
    (fun _ mk r app menuId st =>
      (getNode r st).bind fun n st =>
        match n.type_ with
        | .submenu => create_gtk_item_for_submenu mk r app menuId st
        | .menuItem => create_gtk_item_for_menu_item r menuId st
        | .check => create_gtk_item_for_check_menu_item r app menuId st
        | .icon => create_gtk_item_for_icon_menu_item r menuId st
        | .predefined => .panicked st)
    fuel

/-- Unfolding lemma: zero fuel yields `nofuel`. -/
theorem make_gtk_menu_item_zero (r app menuId : Nat) (st : St) :
    make_gtk_menu_item 0 r app menuId st = .nofuel := rfl

/-- Unfolding lemma: with positive fuel, `make_gtk_menu_item` reads the
node and dispatches on its `item_type()`, recursing with one unit of
fuel less. -/
theorem make_gtk_menu_item_succ (fuel r app menuId : Nat) (st : St) :
    make_gtk_menu_item (fuel + 1) r app menuId st =
      (getNode r st).bind fun n st =>
        match n.type_ with
        | .submenu => create_gtk_item_for_submenu (make_gtk_menu_item fuel) r app menuId st
        | .menuItem => create_gtk_item_for_menu_item r menuId st
        | .check => create_gtk_item_for_check_menu_item r app menuId st
        | .icon => create_gtk_item_for_icon_menu_item r menuId st
        | .predefined => .panicked st := rfl

/-! ## Container mutation (`add_menu_item`) -/

/-- The element loop of `MenuChild::add_menu_item`: over every backend
instance of the container (`application()` and `id()` are
`unreachable!()` on leaf variants), make a backend item for the new
child and append it or insert it at the requested position. -/
def op_elems_loop (mk : Nat → Nat → Nat → St → Res GioItem) (itemRef : Nat)
    (op : AddOp) : List GtkMenuChild → St → Res Unit
  | [], st => .ok () st
  | g :: gs, st =>
    match g.appRef, g.gtkId, g.menuRef with
    | some app, some gid, some menu =>
      (mk itemRef app gid st).bind fun it st =>
        (match op with
          | .append => gioAppendItem menu it st
          | .insert i => gioInsertItem menu (intoI32 i) it st).bind fun _ st =>
          op_elems_loop mk itemRef op gs st
    | _, _, _ => .panicked st

/-- The outer loop of `MenuChild::add_menu_item` over
`self.instances.values()`. -/
def op_vecs_loop (mk : Nat → Nat → Nat → St → Res GioItem) (itemRef : Nat)
    (op : AddOp) : List (Nat × List GtkMenuChild) → St → Res Unit
  | [], st => .ok () st
  | (_, gs) :: rest, st =>
    (op_elems_loop mk itemRef op gs st).bind fun _ st =>
      op_vecs_loop mk itemRef op rest st

/-- `MenuChild::add_menu_item`: first mutate the logical `children`
sequence (`Vec::push` / `Vec::insert`, the latter panicking when the
index exceeds the length), then mirror the change into every backend
instance of the container. -/
def MenuChild.add_menu_item (fuel : Nat) (selfRef itemRef : Nat) (op : AddOp)
    (st : St) : Res Unit :=
  (getNode selfRef st).bind fun n st =>
    (match op with
      | .append => Res.ok () (setNode selfRef { n with children := n.children ++ [itemRef] } st)
      | .insert i =>
        match vec_insert n.children i itemRef with
        | some cs => Res.ok () (setNode selfRef { n with children := cs } st)
        | Option.none => Res.panicked st).bind fun _ st =>
      (getNode selfRef st).bind fun n' st =>
        op_vecs_loop (make_gtk_menu_item fuel) itemRef op n'.instances st

/-- The instance loop of `Menu::add_menu_item`: over every attachment
`(menu_id, menu_bar)`, make a backend item (keyed by the attachment id)
and append it into, or insert it into, the attachment's root
`gio::Menu`. -/
def menu_bars_loop (mk : Nat → Nat → Nat → St → Res GioItem) (itemRef : Nat)
    (op : AddOp) : List (Nat × GtkMenuBar) → St → Res Unit
  | [], st => .ok () st
  | (menuId, bar) :: rest, st =>
    (mk itemRef bar.app menuId st).bind fun it st =>
      (match op with
        | .append => gioAppendItem bar.menu it st
        | .insert i => gioInsertItem bar.menu (intoI32 i) it st).bind fun _ st =>
        menu_bars_loop mk itemRef op rest st

/-- `Menu::add_menu_item`. -/
def Menu.add_menu_item (fuel : Nat) (menuRef itemRef : Nat) (op : AddOp)
    (st : St) : Res Unit :=
  (getMenu menuRef st).bind fun m st =>
    (match op with
      | .append => Res.ok () (setMenu menuRef { m with children := m.children ++ [itemRef] } st)
      | .insert i =>
        match vec_insert m.children i itemRef with
        | some cs => Res.ok () (setMenu menuRef { m with children := cs } st)
        | Option.none => Res.panicked st).bind fun _ st =>
      (getMenu menuRef st).bind fun m' st =>
        menu_bars_loop (make_gtk_menu_item fuel) itemRef op m'.instances st

/-- The instance loop of `Menu::add_menu_item_with_id`: only the
attachments whose key equals `id`. -/
def menu_bars_with_id_loop (mk : Nat → Nat → Nat → St → Res GioItem)
    (itemRef targetId : Nat) : List (Nat × GtkMenuBar) → St → Res Unit
  | [], st => .ok () st
  | (menuId, bar) :: rest, st =>
    if menuId = targetId then
      (mk itemRef bar.app menuId st).bind fun it st =>
        (gioAppendItem bar.menu it st).bind fun _ st =>
          menu_bars_with_id_loop mk itemRef targetId rest st
    else menu_bars_with_id_loop mk itemRef targetId rest st

/-- `Menu::add_menu_item_with_id`. -/
def Menu.add_menu_item_with_id (fuel : Nat) (menuRef itemRef targetId : Nat)
    (st : St) : Res Unit :=
  (getMenu menuRef st).bind fun m st =>
    menu_bars_with_id_loop (make_gtk_menu_item fuel) itemRef targetId m.instances st

/-! ## Attachment (`init_for_gtk_window`) and removal -/

/-- `GtkMenuBar::new(app)`: a fresh `gio::Menu` plus a menu-bar widget
over it. -/
def GtkMenuBar.new (app : Nat) (st : St) : GtkMenuBar × St :=
  let (g, st) := gioNewMenu st
  (.menuBar g app, st)

/-- The `for item in self.items()` loop of `init_for_gtk_window`
(errors propagate via `?`). -/
def init_items_loop (fuel menuRef targetId : Nat) : List Nat → St → Res Unit
  | [], st => .ok () st
  | c :: cs, st =>
    (Menu.add_menu_item_with_id fuel menuRef c targetId st).bind fun _ st =>
      init_items_loop fuel menuRef targetId cs st

/-- `Menu::init_for_gtk_window`: derive the attachment id from the
window's native identity; fail with `GtkWindowWithoutApplication` when
the window has no application; fail with `AlreadyInitialized` (leaving
all state untouched) when the id already has a backend root; otherwise
register a fresh `GtkMenuBar` under the id, populate it from the
logical children, and hand the widget to the window (the action-group
installation, the container-hint widget insertion and `set_visible` are
external).  The final `self.instances[&id].menu_bar()` lookup panics
unless a `MenuBar` instance is registered under the id. -/
def Menu.init_for_gtk_window (fuel : Nat) (menuRef : Nat) (w : Window)
    (st : St) : Res Unit :=
  match w.app with
  | Option.none => .err .gtkWindowWithoutApplication st
  | some app =>
    (getMenu menuRef st).bind fun m st =>
      match afind m.instances w.ptrId with
      | some _ => .err .alreadyInitialized st
      | Option.none =>
        let (bar, st) := GtkMenuBar.new app st
        let st := setMenu menuRef { m with instances := aset m.instances w.ptrId bar } st
        (getMenu menuRef st).bind fun m' st =>
          (init_items_loop fuel menuRef w.ptrId m'.children st).bind fun _ st =>
            (getMenu menuRef st).bind fun m'' st =>
              match afind m''.instances w.ptrId with
              | some (.menuBar _ _) => .ok () st
              | _ => .panicked st

/-- `Menu::remove` is `todo!()` in the source: every call panics. -/
def Menu.remove (menuRef itemRef : Nat) (st : St) : Res Unit :=
  .panicked st

/-- `MenuChild::remove` is `todo!()` in the source: every call
panics. -/
def MenuChild.remove (selfRef itemRef : Nat) (st : St) : Res Unit :=
  .panicked st

/-! ## Checked state -/

/-- `MenuChild::set_checked` is `todo!()` in the source: every call
panics, mutating nothing. -/
def MenuChild.set_checked (r : Nat) (checked : Bool) (st : St) : Res Unit :=
  .panicked st

/-- `CheckMenuItem::set_checked` (items layer, non-macOS branch):
borrow the inner node mutably and delegate to
`MenuChild::set_checked`. -/
def CheckMenuItem.set_checked (h : CheckMenuItem) (checked : Bool) (st : St) :
    Res Unit :=
  (getNode h.innerRef st).bind fun _ st =>
    MenuChild.set_checked h.innerRef checked st

/-- `self.instances.values().find_map(|i| i.first())`: the first
element of the first nonempty instance vector. -/
def firstInstance : List (Nat × List GtkMenuChild) → Option GtkMenuChild
  | [] => Option.none
  | (_, []) :: rest => firstInstance rest
  | (_, g :: _) :: _ => some g

/-- `MenuChild::is_checked`: the state of the first backend instance's
stateful action if any instance exists (falling back to the canonical
flag when the action has no boolean state), else the canonical
`checked` flag.  `action()` is `unreachable!()` on non-check variants,
modelled as `none`. -/
def MenuChild.is_checked (st : St) (n : MenuChild) : Option Bool :=
  match firstInstance n.instances with
  | Option.none => some n.checked
  | some (.checkItem _ aref) => some ((afind st.actions aref).getD n.checked)
  | some _ => Option.none

/-- `CheckMenuItem::is_checked` (items layer): borrow the inner node
and delegate. -/
def CheckMenuItem.is_checked (st : St) (h : CheckMenuItem) : Option Bool :=
  (afind st.nodes h.innerRef).bind (MenuChild.is_checked st)

/-! ## Context menus -/

/-- The `for item in self.items()` loop of
`show_context_menu_for_gtk_window`: the `Result` of each
`add_menu_item_with_id` is discarded (`let _ = ...`), but panics
propagate. -/
def ctx_items_loop (fuel selfRef ctxId : Nat) : List Nat → St → Res Unit
  | [], st => .ok () st
  | c :: cs, st =>
    match MenuChild.add_menu_item_with_id (make_gtk_menu_item fuel) selfRef c ctxId st with
    | .ok _ st => ctx_items_loop fuel selfRef ctxId cs st
    | .err _ st => ctx_items_loop fuel selfRef ctxId cs st
    | .panicked st => .panicked st
    | .nofuel => .nofuel

/-- `MenuChild::show_context_menu_for_gtk_window`: returns `false` when
the window has no application; otherwise builds (once, cached under
`ctx_menu_id`) a popup backend instance populated from the logical
children, then pops it up (anchor computation, widget re-parenting and
the popup itself are external) and returns `true`.  The final
`unwrap`s panic if no instance vector, an empty vector, or a
non-`ContextMenu` first element is registered under `ctx_menu_id`. -/
def MenuChild.show_context_menu_for_gtk_window (fuel : Nat) (selfRef : Nat)
    (w : Window) (st : St) : Res Bool :=
  match w.app with
  | Option.none => .ok false st
  | some app =>
    (getNode selfRef st).bind fun n st =>
      (match afind n.instances n.ctxMenuId with
        | some _ => Res.ok () st
        | Option.none =>
          let (menu, st) := gioNewMenu st
          let inst := GtkMenuChild.contextMenu n.ctxMenuId menu app
          let st := setNode selfRef
            { n with instances := aset n.instances n.ctxMenuId [inst] } st
          (getNode selfRef st).bind fun n' st =>
            ctx_items_loop fuel selfRef n'.ctxMenuId n'.children st).bind fun _ st =>
        (getNode selfRef st).bind fun n'' st =>
          match afind n''.instances n''.ctxMenuId with
          | some (.contextMenu _ _ _ :: _) => .ok true st
          | _ => .panicked st

/-! ## Compatibility projection (`src/items/compat.rs`) -/

/-- `CompatMenuItem` from `src/items/compat.rs` (the `ArcSwap`
indirection around submenu entries is flattened to the values they
hold). -/
inductive CompatMenuItem where
  | standard (id label : String) (enabled : Bool) (icon : Option Icon)
      (predefinedMenuItemKind : Option PredefinedMenuItemKind)
  | checkmark (id label : String) (enabled checked : Bool)
  | subMenu (label : String) (enabled : Bool) (submenu : List CompatMenuItem)
  | separator

/-- The `label` field of a projection record (`Separator` has none). -/
def CompatMenuItem.label? : CompatMenuItem → Option String
  | .standard _ l _ _ _ => some l
  | .checkmark _ l _ _ => some l
  | .subMenu l _ _ => some l
  | .separator => Option.none

/-- Projection of a list of children (`submenu.compat_items()`,
modelled from the spec: submenus project to a record holding the
projections of their children; the submenu accessor file is not among
the sources). -/
def compat_children (f : Nat → Option CompatMenuItem) :
    List Nat → Option (List CompatMenuItem)
  | [] => some []
  | c :: cs => (f c).bind fun x => (compat_children f cs).map (x :: ·)

/-- `From<MenuItemKind> for CompatMenuItem` (`src/items/compat.rs`):
the projection record of a node, dispatching on its kind; every label
is `strip_accelerator(text)`. -/
def compat_of_kind_body (st : St) (f : Nat → Option CompatMenuItem)
    (r : Nat) : Option CompatMenuItem :=
    match afind st.nodes r with
    | Option.none => Option.none
    | some n =>
      match n.type_ with
      | .menuItem =>
        some (.standard n.id (strip_acceleratorS n.text) n.enabled Option.none Option.none)
      | .submenu =>
        (compat_children f n.children).map fun subs =>
          .subMenu (strip_acceleratorS n.text) n.enabled subs
      | .predefined =>
        match n.predefinedItemKind with
        | some .separator => some .separator
        | some k =>
          some (.standard n.id (strip_acceleratorS n.text) true Option.none (some k))
        | Option.none =>
          some (.standard n.id (strip_acceleratorS n.text) true Option.none Option.none)
      | .check =>
        (MenuChild.is_checked st n).map fun b =>
          .checkmark n.id (strip_acceleratorS n.text) n.enabled b
      | .icon =>
        some (.standard n.id (strip_acceleratorS n.text) n.enabled n.icon Option.none)

/-- The fuel-bounded projection: unfold `compat_of_kind_body` through
nested submenus, one fuel unit per nesting level. -/
def compat_of_kind (st : St) (fuel : Nat) : Nat → Option CompatMenuItem :=
  Nat.rec (motive := fun _ => Nat → Option CompatMenuItem)
    (fun _ => Option.none)
    (fun _ f => compat_of_kind_body st f)
    fuel

/-- Unfolding lemma for `compat_of_kind` at positive fuel. -/
theorem compat_of_kind_succ (st : St) (fuel : Nat) :
    compat_of_kind st (fuel + 1) = compat_of_kind_body st (compat_of_kind st fuel) := rfl

/-! ## Association-list lemmas -/

theorem afind_aset_self {α : Type} (l : List (Nat × α)) (k : Nat) (v : α) :
    afind (aset l k v) k = some v := by
  induction l with
  | nil => simp [aset, afind]
  | cons kv rest ih =>
    obtain ⟨k', w⟩ := kv
    by_cases h : k' = k <;> simp [aset, afind, h, ih]

theorem afind_aset_ne {α : Type} (l : List (Nat × α)) (k k' : Nat) (v : α)
    (h : k ≠ k') : afind (aset l k v) k' = afind l k' := by
  induction l with
  | nil => simp [aset, afind, h]
  | cons kv rest ih =>
    obtain ⟨k'', w⟩ := kv
    by_cases h2 : k'' = k
    · subst h2
      simp [aset, afind, h]
    · simp [aset, afind, h2, ih]

/-! ## Concrete states used to exercise the model -/

/-- The empty machine state. -/
def st_empty : St :=
  { counter := 0, nodes := [], nextNode := 0, menus := [], nextMenu := 0,
    gioMenus := [], nextGio := 0, actions := [], nextAction := 0 }

/-- A plain menu-item node whose text contains an escaped `&&` and a
mnemonic `&`. -/
def nC4 : MenuChild :=
  { id := "7", text := "Save && &Quit", enabled := true,
    accelerator := Option.none, checked := false, icon := Option.none,
    type_ := .menuItem, predefinedItemKind := Option.none, instances := [],
    ctxMenuId := 0, children := [] }

/-- A state holding just the node `nC4`. -/
def stC4 : St := { st_empty with nodes := [(0, nC4)], nextNode := 1 }

/-- The projection record the code computes for `nC4`. -/
def cC4 : CompatMenuItem :=
  .standard "7" "Save  Quit" true Option.none Option.none

/-- A plain leaf node used as the inserted item in the C8 scenario. -/
def nLeaf : MenuChild :=
  { id := "9", text := "Leaf", enabled := true, accelerator := Option.none,
    checked := false, icon := Option.none, type_ := .menuItem,
    predefinedItemKind := Option.none, instances := [], ctxMenuId := 0,
    children := [] }

/-- An empty submenu container node. -/
def nSub : MenuChild :=
  { id := "8", text := "Sub", enabled := true, accelerator := Option.none,
    checked := false, icon := Option.none, type_ := .submenu,
    predefinedItemKind := Option.none, instances := [], ctxMenuId := 4,
    children := [] }

/-- An empty root menu. -/
def mC8 : Menu := { id := "m", instances := [], ctxMenuId := 3, children := [] }

/-- A state with one empty root menu, one leaf node and one empty
submenu node. -/
def stC8 : St :=
  { st_empty with counter := 20, menus := [(0, mC8)], nextMenu := 1,
                  nodes := [(0, nLeaf), (1, nSub)], nextNode := 2 }

/-- A check node with one materialized backend instance whose stateful
action currently holds `true`, while the canonical flag is `false`. -/
def nC10 : MenuChild :=
  { id := "c", text := "Check", enabled := true, accelerator := Option.none,
    checked := false, icon := Option.none, type_ := .check,
    predefinedItemKind := Option.none,
    instances := [(5, [GtkMenuChild.checkItem
      { label := "Check", action := some "muda.c", submenuRef := Option.none,
        icon := Option.none } 0])],
    ctxMenuId := 0, children := [] }

/-- A state holding `nC10` and its backend action (state `true`). -/
def stC10 : St :=
  { st_empty with nodes := [(2, nC10)], nextNode := 3,
                  actions := [(0, true)], nextAction := 1 }

/-- A handle for `nC10`. -/
def hC10 : CheckMenuItem := { id := "c", innerRef := 2 }

/-! ## Claim C3: `set_checked` -/

/-- C3: the claim says `set_checked(true)` returns normally and every
backend instance plus the projection then report `true`.  In the
source, `MenuChild::set_checked` is `todo!()`: every call through
`CheckMenuItem::set_checked` panics and mutates nothing, so the mutator
never returns normally.  This theorem evaluates the code's behaviour:
both layers panic with the state untouched, for every handle, flag and
state. -/
theorem c3_set_checked_panics (h : CheckMenuItem) (b : Bool) (st : St) :
    CheckMenuItem.set_checked h b st = Res.panicked st ∧
      MenuChild.set_checked h.innerRef b st = Res.panicked st := by
  constructor
  · unfold CheckMenuItem.set_checked getNode
    cases hfind : afind st.nodes h.innerRef <;>
      simp [Res.bind, MenuChild.set_checked]
  · rfl

/-! ## Claim C6: `remove` -/

/-- C6: the claim says `remove(item)` returns normally, removes the
item from the logical sequence and tears down its backend instances.
In the source both `Menu::remove` and `MenuChild::remove` are
`todo!()`: every call panics and nothing is removed. -/
theorem c6_remove_panics (menuRef selfRef itemRef : Nat) (st : St) :
    Menu.remove menuRef itemRef st = Res.panicked st ∧
      MenuChild.remove selfRef itemRef st = Res.panicked st :=
  ⟨rfl, rfl⟩

/-! ## Claim C5: predefined defaults -/

/-- C5 (counterexample): for `Copy` constructed without an overriding
text, the node's accelerator is `None`, while the default accelerator
derived from the kind is `CmdOrCtrl+C` — so the node's accelerator does
not equal the derived default. -/
theorem c5_accelerator_counterexample :
    (MenuChild.new_predefined .copy Option.none st_empty).1.text = "&Copy" ∧
      (MenuChild.new_predefined .copy Option.none st_empty).1.accelerator =
        Option.none ∧
      PredefinedMenuItemKind.accelerator .copy =
        some (Accelerator.new (some CMD_OR_CTRL) Code.keyC) ∧
      (Option.none : Option Accelerator) ≠
        some (Accelerator.new (some CMD_OR_CTRL) Code.keyC) := by
  refine ⟨rfl, rfl, rfl, by decide⟩

/-- C5 (amended): a predefined node constructed without an overriding
text gets the default text derived from its kind, and an overriding
text replaces only the text; the node's `accelerator` field however is
always `None` — the kind-derived default accelerator
(`PredefinedMenuItemKind::accelerator`) is never stored on the node. -/
theorem c5_predefined_defaults (k : PredefinedMenuItemKind) (s : String)
    (st : St) :
    (MenuChild.new_predefined k Option.none st).1.text = k.text ∧
      (MenuChild.new_predefined k (some s) st).1.text = s ∧
      (MenuChild.new_predefined k Option.none st).1.accelerator = Option.none ∧
      (MenuChild.new_predefined k (some s) st).1.accelerator = Option.none :=
  ⟨rfl, rfl, rfl, rfl⟩

/-! ## Claim C10: `is_checked` -/

/-- If every instance vector of a node is empty, there is no first
backend instance. -/
theorem firstInstance_eq_none {l : List (Nat × List GtkMenuChild)}
    (h : ∀ kv ∈ l, kv.2 = []) : firstInstance l = Option.none := by
  induction l with
  | nil => rfl
  | cons kv rest ih =>
    obtain ⟨k, v⟩ := kv
    have hv : v = [] := h (k, v) (by simp)
    subst hv
    exact ih fun kv hkv => h kv (by simp [hkv])

/-- C10: (a) a check item freshly constructed with flag `c` reports
`is_checked() = c`; (b) in general, while a node has no backend
instance, `is_checked()` returns the stored canonical flag; (c) once a
backend instance exists, `is_checked()` returns the boolean state of
the first backend instance's stateful action — independently of the
canonical flag. -/
theorem c10_is_checked (text : String) (en c : Bool)
    (acc : Option Accelerator) (st st' : St) (n0 n : MenuChild)
    (it : GioItem) (aref : Nat) (b : Bool)
    (hempty : ∀ kv ∈ n0.instances, kv.2 = [])
    (hfirst : firstInstance n.instances =
      some (GtkMenuChild.checkItem it aref))
    (haction : afind st.actions aref = some b) :
    (CheckMenuItem.is_checked (CheckMenuItem.new text en c acc st').2
        (CheckMenuItem.new text en c acc st').1 = some c) ∧
      (MenuChild.is_checked st n0 = some n0.checked) ∧
      (∀ c' : Bool,
        MenuChild.is_checked st { n with checked := c' } = some b) := by
  refine ⟨?_, ?_, ?_⟩
  · simp [CheckMenuItem.new, CheckMenuItem.is_checked, MenuChild.new_check,
      allocNode, MenuChild.is_checked, firstInstance, counter_next,
      afind_aset_self]
  · simp [MenuChild.is_checked, firstInstance_eq_none hempty]
  · intro c'
    simp only [MenuChild.is_checked]
    rw [show ({ n with checked := c' } : MenuChild).instances = n.instances from rfl,
      hfirst]
    simp [haction]

/-- Witness for `c10_is_checked`: a check node whose only backend
instance's action holds `true` while the canonical flag is `false`
reports `true`; the hypotheses hold of the concrete state `stC10`. -/
theorem c10_is_checked_witness :
    CheckMenuItem.is_checked stC10 hC10 = some true ∧
      CheckMenuItem.is_checked
        (CheckMenuItem.new "C" true true Option.none st_empty).2
        (CheckMenuItem.new "C" true true Option.none st_empty).1 = some true := by
  have h := c10_is_checked "C" true true Option.none stC10 st_empty nLeaf nC10
    { label := "Check", action := some "muda.c", submenuRef := Option.none,
      icon := Option.none } 0 true
    (by intro kv hkv; simp [nLeaf] at hkv)
    (by rfl) (by rfl)
  refine ⟨?_, h.1⟩
  have h3 := h.2.2 false
  have : CheckMenuItem.is_checked stC10 hC10 =
      MenuChild.is_checked stC10 { nC10 with checked := false } := by
    simp [CheckMenuItem.is_checked, hC10, stC10, afind]
    rfl
  rw [this, h3]

/-! ## Claim C4: the compatibility projection label -/

/-- Replacing every `'&'` by the empty string removes exactly the
ampersand characters. -/
theorem replaceAll_amp_empty (s : List Char) :
    replaceAll ['&'] [] s = s.filter (· ≠ '&') := by
  induction s with
  | nil => simp [replaceAll]
  | cons c cs ih =>
    by_cases h : c = '&'
    · subst h
      simpa [replaceAll, List.isPrefixOf] using ih
    · simpa [replaceAll, List.isPrefixOf, h, Ne.symm h] using ih

/-- `strip_accelerator` removes every ampersand from the text. -/
theorem strip_acceleratorS_eq (s : String) :
    strip_acceleratorS s = ⟨s.data.filter (· ≠ '&')⟩ := by
  unfold strip_acceleratorS strip_accelerator
  rw [replaceAll_amp_empty]

/-- Evaluation of `strip_accelerator` at the claim's example text. -/
theorem strip_save_quit : strip_acceleratorS "Save && &Quit" = "Save  Quit" := by
  rw [strip_acceleratorS_eq]
  apply String.ext
  decide

/-- Evaluation of the projection at the concrete state `stC4`. -/
theorem compat_stC4_eval : compat_of_kind stC4 1 0 = some cC4 := by
  rw [compat_of_kind_succ]
  unfold compat_of_kind_body
  rw [show afind stC4.nodes 0 = some nC4 from rfl]
  simp only [nC4, cC4, strip_save_quit]

/-- C4 (counterexample): the claim says an escaped `&&` is rendered as
one literal `&`, so `"Save && &Quit"` would project to label
`"Save & Quit"`.  The code's `strip_accelerator` removes every `&`
(including escaped ones): the projection record of a node with that
text carries label `"Save  Quit"`, which differs from
`"Save & Quit"`. -/
theorem c4_label_counterexample :
    strip_acceleratorS "Save && &Quit" = "Save  Quit" ∧
      ("Save  Quit" : String) ≠ "Save & Quit" ∧
      compat_of_kind stC4 1 0 = some cC4 ∧
      cC4.label? = some "Save  Quit" :=
  ⟨strip_save_quit, by decide, compat_stC4_eval, rfl⟩

/-- C4 (amended): for every node, the label stored in the node's
compatibility projection record equals the text with **every** `'&'`
character removed (an escaped `&&` is removed entirely, not rendered as
a literal `&`); a predefined separator projects to the bare separator
marker, which carries no label. -/
theorem c4_compat_label_strips_all_ampersands (st : St) (fuel r : Nat)
    (n : MenuChild) (c : CompatMenuItem)
    (hn : afind st.nodes r = some n)
    (hc : compat_of_kind st fuel r = some c) :
    c.label? =
      if n.type_ = .predefined ∧ n.predefinedItemKind = some .separator
      then Option.none
      else some ⟨n.text.data.filter (· ≠ '&')⟩ := by
  cases fuel with
  | zero =>
    exact Option.noConfusion
      (show (Option.none : Option CompatMenuItem) = some c from hc)
  | succ fuel =>
    rw [compat_of_kind_succ] at hc
    unfold compat_of_kind_body at hc
    rw [hn] at hc
    dsimp only at hc
    rcases htype : n.type_ with _ | _ | _ | _ | _ <;> rw [htype] at hc
    · -- MenuItem
      obtain rfl := Option.some_injective _ hc.symm
      simp [CompatMenuItem.label?, htype, strip_acceleratorS_eq]
    · -- Submenu
      cases hsubs : compat_children (compat_of_kind st fuel) n.children with
      | none => rw [hsubs] at hc; exact Option.noConfusion hc
      | some subs =>
        rw [hsubs] at hc
        obtain rfl := Option.some_injective _ hc.symm
        simp [CompatMenuItem.label?, htype, strip_acceleratorS_eq]
    · -- Predefined
      rcases hk : n.predefinedItemKind with _ | k <;> rw [hk] at hc
      · obtain rfl := Option.some_injective _ hc.symm
        simp [CompatMenuItem.label?, htype, hk, strip_acceleratorS_eq]
      · cases k <;>
          · obtain rfl := Option.some_injective _ hc.symm
            simp [CompatMenuItem.label?, htype, hk, strip_acceleratorS_eq]
    · -- Check
      cases hb : MenuChild.is_checked st n with
      | none => rw [hb] at hc; exact Option.noConfusion hc
      | some b =>
        rw [hb] at hc
        obtain rfl := Option.some_injective _ hc.symm
        simp [CompatMenuItem.label?, htype, strip_acceleratorS_eq]
    · -- Icon
      obtain rfl := Option.some_injective _ hc.symm
      simp [CompatMenuItem.label?, htype, strip_acceleratorS_eq]

/-- Witness for `c4_compat_label_strips_all_ampersands`: at the
concrete state `stC4` the hypotheses hold and the projection label is
the fully ampersand-stripped text. -/
theorem c4_compat_label_witness :
    afind stC4.nodes 0 = some nC4 ∧
      compat_of_kind stC4 1 0 = some cC4 ∧
      cC4.label? = some "Save  Quit" := by
  have hc : compat_of_kind stC4 1 0 = some cC4 := compat_stC4_eval
  refine ⟨rfl, hc, ?_⟩
  have h := c4_compat_label_strips_all_ampersands stC4 1 0 nC4 cC4 rfl hc
  rw [h]
  rw [if_neg (by simp [nC4])]
  congr 1

/-! ## Claim C8: out-of-bounds insert -/

/-- C8 (amended): for both containers, inserting at an index greater
than the current length panics inside `Vec::insert` before any change
is made — no `InvalidIndex` error value is returned to the caller —
and the children sequence (indeed the whole machine state) is unchanged
by the failed call. -/
theorem c8_insert_out_of_bounds_panics (fuel : Nat) (st : St)
    (menuRef selfRef itemRef i : Nat) (m : Menu) (n : MenuChild)
    (hm : afind st.menus menuRef = some m)
    (hilen : m.children.length < i)
    (hn : afind st.nodes selfRef = some n)
    (hilen' : n.children.length < i) :
    Menu.add_menu_item fuel menuRef itemRef (.insert i) st =
        Res.panicked st ∧
      MenuChild.add_menu_item fuel selfRef itemRef (.insert i) st =
        Res.panicked st := by
  constructor
  · unfold Menu.add_menu_item getMenu
    rw [hm]
    simp [Res.bind, vec_insert, Nat.not_le.mpr hilen]
  · unfold MenuChild.add_menu_item getNode
    rw [hn]
    simp [Res.bind, vec_insert, Nat.not_le.mpr hilen']

/-- C8 (counterexample): at the concrete state `stC8` (an empty root
menu and an empty submenu), inserting at index 1 panics and does not
surface the spec's `InvalidIndex` error; the state — in particular the
children sequence — is unchanged. -/
theorem c8_insert_counterexample :
    Menu.add_menu_item 1 0 0 (.insert 1) stC8 = Res.panicked stC8 ∧
      Menu.add_menu_item 1 0 0 (.insert 1) stC8 ≠
        Res.err .invalidIndex stC8 ∧
      MenuChild.add_menu_item 1 1 0 (.insert 1) stC8 = Res.panicked stC8 ∧
      MenuChild.add_menu_item 1 1 0 (.insert 1) stC8 ≠
        Res.err .invalidIndex stC8 := by
  refine ⟨by decide, by decide, by decide, by decide⟩

/-- Witness for `c8_insert_out_of_bounds_panics` at the concrete state
`stC8` with insertion index 5. -/
theorem c8_insert_witness :
    Menu.add_menu_item 2 0 0 (.insert 5) stC8 = Res.panicked stC8 ∧
      MenuChild.add_menu_item 2 1 0 (.insert 5) stC8 = Res.panicked stC8 :=
  c8_insert_out_of_bounds_panics 2 stC8 0 1 0 5 mC8 nSub
    (by decide) (by decide) (by decide) (by decide)

/-! ## Well-formed trees and state preservation

The success theorems about materialization (claims about
`init_for_gtk_window`, `add_menu_item` into attached containers and
`show_context_menu`) quantify over machine states whose relevant
subtree is well formed: every reachable node exists, no reachable node
is a `Predefined` item (whose backend construction is `todo!()`), and
the backend instances already recorded on reachable submenu nodes are
container variants whose instance ids were drawn from the counter
(hence are below its current value). -/

/-- All backend-instance elements of a node, across every attachment
key. -/
def instElems (inst : List (Nat × List GtkMenuChild)) : List GtkMenuChild :=
  (inst.map Prod.snd).flatten

theorem mem_instElems {inst : List (Nat × List GtkMenuChild)}
    {g : GtkMenuChild} : g ∈ instElems inst ↔ ∃ kv ∈ inst, g ∈ kv.2 := by
  simp only [instElems, List.mem_flatten, List.mem_map]
  constructor
  · rintro ⟨l, ⟨⟨a, b⟩, hab, rfl⟩, hg⟩
    exact ⟨(a, b), hab, hg⟩
  · rintro ⟨⟨a, b⟩, hab, hg⟩
    exact ⟨b, ⟨(a, b), hab, rfl⟩, hg⟩

theorem mem_instElems_of_vec {inst : List (Nat × List GtkMenuChild)}
    {k : Nat} {gs : List GtkMenuChild} {g : GtkMenuChild}
    (hk : (k, gs) ∈ inst) (hg : g ∈ gs) : g ∈ instElems inst :=
  mem_instElems.mpr ⟨(k, gs), hk, hg⟩

theorem afind_some_mem {α : Type} {l : List (Nat × α)} {k : Nat} {v : α}
    (h : afind l k = some v) : (k, v) ∈ l := by
  induction l with
  | nil => simp [afind] at h
  | cons kv rest ih =>
    obtain ⟨k', w⟩ := kv
    by_cases hk : k' = k
    · subst hk
      simp [afind] at h
      simp [h]
    · simp [afind, hk] at h
      simp [ih h]

theorem instElems_aset_sub {inst : List (Nat × List GtkMenuChild)}
    {k : Nat} {v : List GtkMenuChild} {g : GtkMenuChild}
    (h : g ∈ instElems (aset inst k v)) : g ∈ v ∨ g ∈ instElems inst := by
  induction inst with
  | nil =>
    simp [aset, instElems] at h
    exact Or.inl h
  | cons kv rest ih =>
    obtain ⟨k', w⟩ := kv
    by_cases hk : k' = k
    · subst hk
      simp [aset, instElems] at h ⊢
      tauto
    · simp [aset, hk, instElems] at h ⊢
      rcases h with h | h
      · tauto
      · rcases ih (by simpa [instElems] using h) with h' | h'
        · tauto
        · simp [instElems] at h'
          tauto

theorem instElems_apush_sub {inst : List (Nat × List GtkMenuChild)}
    {k : Nat} {x g : GtkMenuChild}
    (h : g ∈ instElems (apush inst k x)) : g ∈ instElems inst ∨ g = x := by
  unfold apush at h
  cases hf : afind inst k with
  | none =>
    rw [hf] at h
    rcases instElems_aset_sub h with h' | h'
    · simp at h'
      exact Or.inr h'
    · exact Or.inl h'
  | some xs =>
    rw [hf] at h
    rcases instElems_aset_sub h with h' | h'
    · rcases List.mem_append.mp h' with h'' | h''
      · exact Or.inl (mem_instElems_of_vec (afind_some_mem hf) h'')
      · simp at h''
        exact Or.inr h''
    · exact Or.inl h'

/-- Is this instance a container variant whose id is below `c`? -/
def containerLt (c : Nat) : GtkMenuChild → Bool
  | .submenu gid _ _ _ => gid < c
  | .contextMenu gid _ _ => gid < c
  | _ => false

/-- All recorded instances are container variants with ids drawn below
the counter value `c`. -/
def instancesOk (c : Nat) (inst : List (Nat × List GtkMenuChild)) : Bool :=
  (instElems inst).all (containerLt c)

/-- One unfolding of tree well-formedness: the node exists, is not
`Predefined`, and if it is a submenu its recorded instances are
well-formed containers and all its children are well formed (via
`good`). -/
def goodNodeBody (st : St) (good : Nat → Bool) (r : Nat) : Bool :=
  match afind st.nodes r with
  | Option.none => false
  | some n =>
    match n.type_ with
    | .predefined => false
    | .submenu => instancesOk st.counter n.instances && n.children.all good
    | _ => true

/-- Fuel-bounded tree well-formedness. -/
def goodNode (st : St) (fuel : Nat) : Nat → Bool :=
  Nat.rec (motive := fun _ => Nat → Bool) (fun _ => false)
    (fun _ good => goodNodeBody st good) fuel

theorem goodNode_zero (st : St) (r : Nat) : goodNode st 0 r = false := rfl

theorem goodNode_succ (st : St) (fuel : Nat) :
    goodNode st (fuel + 1) = goodNodeBody st (goodNode st fuel) := rfl

theorem afind_apush_self {α : Type} (l : List (Nat × List α)) (k : Nat)
    (x : α) : afind (apush l k x) k = some ((afind l k).getD [] ++ [x]) := by
  unfold apush
  cases h : afind l k with
  | none => rw [afind_aset_self]; rfl
  | some xs => rw [afind_aset_self]; rfl

theorem afind_apush_ne {α : Type} (l : List (Nat × List α)) (k k' : Nat)
    (x : α) (h : k ≠ k') : afind (apush l k x) k' = afind l k' := by
  unfold apush
  cases hf : afind l k <;> exact afind_aset_ne _ _ _ _ h

/-- A backend-instance element freshly created while the counter ran
from `c` to `c'`: a `Submenu` container whose id lies in `[c, c')`. -/
def FreshSub (c c' : Nat) (g : GtkMenuChild) : Prop :=
  ∃ gid it mr ap, g = GtkMenuChild.submenu gid it mr ap ∧ c ≤ gid ∧ gid < c'

theorem FreshSub.widen {c c' c0 c1 : Nat} {g : GtkMenuChild}
    (h : FreshSub c c' g) (h1 : c0 ≤ c) (h2 : c' ≤ c1) : FreshSub c0 c1 g := by
  obtain ⟨gid, it, mr, ap, rfl, hge, hlt⟩ := h
  exact ⟨gid, it, mr, ap, rfl, le_trans h1 hge, lt_of_lt_of_le hlt h2⟩

/-- Preservation of the node heap's shape by materialization: node
types and children never change; the only new backend-instance elements
a submenu node acquires are fresh `Submenu` containers, and each
existing instance vector only grows at its end by such elements. -/
structure NodesPres (st st' : St) : Prop where
  counter_le : st.counter ≤ st'.counter
  nodes_shape : ∀ r n, afind st.nodes r = some n →
    ∃ n', afind st'.nodes r = some n' ∧ n'.type_ = n.type_ ∧
      n'.children = n.children ∧ n'.ctxMenuId = n.ctxMenuId ∧
      (n.type_ = MenuItemType.submenu →
        (∀ g ∈ instElems n'.instances, g ∈ instElems n.instances ∨
          FreshSub st.counter st'.counter g) ∧
        (∀ k v, afind n.instances k = some v →
          ∃ w, afind n'.instances k = some (v ++ w) ∧
            ∀ g ∈ w, FreshSub st.counter st'.counter g))

/-- Full preservation, relative to a watermark `lo`: additionally the
root-menu heap is unchanged and every `gio::Menu` allocated below `lo`
keeps its contents. -/
structure PresB (lo : Nat) (st st' : St) extends NodesPres st st' : Prop where
  nextGio_le : st.nextGio ≤ st'.nextGio
  menus_eq : st'.menus = st.menus
  gio_lo : ∀ g, g < lo → afind st'.gioMenus g = afind st.gioMenus g

theorem NodesPres.np_refl (st : St) : NodesPres st st :=
  ⟨le_refl _, fun r n h => ⟨n, h, rfl, rfl, rfl, fun _ =>
    ⟨fun g hg => Or.inl hg,
     fun k v hv => ⟨[], by simpa using hv, by simp⟩⟩⟩⟩

theorem NodesPres.np_trans {st1 st2 st3 : St} (h1 : NodesPres st1 st2)
    (h2 : NodesPres st2 st3) : NodesPres st1 st3 := by
  refine ⟨le_trans h1.counter_le h2.counter_le, fun r n h => ?_⟩
  obtain ⟨n2, hn2, ht2, hc2, hx2, hi2⟩ := h1.nodes_shape r n h
  obtain ⟨n3, hn3, ht3, hc3, hx3, hi3⟩ := h2.nodes_shape r n2 hn2
  refine ⟨n3, hn3, ht3.trans ht2, hc3.trans hc2, hx3.trans hx2, fun htype => ?_⟩
  obtain ⟨hm2, hp2⟩ := hi2 htype
  obtain ⟨hm3, hp3⟩ := hi3 (ht2.trans htype)
  constructor
  · intro g hg
    rcases hm3 g hg with h' | hfr
    · rcases hm2 g h' with h'' | hfr
      · exact Or.inl h''
      · exact Or.inr (hfr.widen (le_refl _) h2.counter_le)
    · exact Or.inr (hfr.widen h1.counter_le (le_refl _))
  · intro k v hv
    obtain ⟨w1, hw1, hfr1⟩ := hp2 k v hv
    obtain ⟨w2, hw2, hfr2⟩ := hp3 k (v ++ w1) hw1
    refine ⟨w1 ++ w2, by rw [hw2, List.append_assoc], ?_⟩
    intro g hg
    rcases List.mem_append.mp hg with h' | h'
    · exact (hfr1 g h').widen (le_refl _) h2.counter_le
    · exact (hfr2 g h').widen h1.counter_le (le_refl _)

theorem PresB.pb_refl (lo : Nat) (st : St) : PresB lo st st :=
  ⟨NodesPres.np_refl st, le_refl _, rfl, fun _ _ => rfl⟩

theorem PresB.pb_trans {lo : Nat} {st1 st2 st3 : St} (h1 : PresB lo st1 st2)
    (h2 : PresB lo st2 st3) : PresB lo st1 st3 :=
  ⟨h1.toNodesPres.np_trans h2.toNodesPres,
    le_trans h1.nextGio_le h2.nextGio_le,
    h2.menus_eq.trans h1.menus_eq,
    fun g hg => (h2.gio_lo g hg).trans (h1.gio_lo g hg)⟩

theorem PresB.weaken {lo lo' : Nat} {st st' : St} (h : PresB lo st st')
    (hle : lo' ≤ lo) : PresB lo' st st' :=
  ⟨h.toNodesPres, h.nextGio_le, h.menus_eq,
    fun g hg => h.gio_lo g (lt_of_lt_of_le hg hle)⟩

/-- Tree well-formedness transports along `NodesPres`. -/
theorem goodNode_mono {st st' : St} (h : NodesPres st st') :
    ∀ fuel r, goodNode st fuel r = true → goodNode st' fuel r = true := by
  intro fuel
  induction fuel with
  | zero => intro r hr; rw [goodNode_zero] at hr; exact absurd hr (by simp)
  | succ fuel ih =>
    intro r hr
    rw [goodNode_succ] at hr ⊢
    unfold goodNodeBody at hr ⊢
    cases hn : afind st.nodes r with
    | none => rw [hn] at hr; exact absurd hr (by simp)
    | some n =>
      rw [hn] at hr
      dsimp only at hr
      obtain ⟨n', hn', ht', hc', hx', hi'⟩ := h.nodes_shape r n hn
      rw [hn']
      dsimp only
      rw [ht']
      cases htype : n.type_ with
      | predefined => rw [htype] at hr; exact absurd hr (by simp)
      | submenu =>
        rw [htype] at hr
        simp only [Bool.and_eq_true] at hr
        obtain ⟨hinst, hch⟩ := hr
        simp only [Bool.and_eq_true]
        constructor
        · unfold instancesOk at hinst ⊢
          rw [List.all_eq_true] at hinst ⊢
          intro g hg
          rcases (hi' htype).1 g hg with hold | ⟨gid, it, mr, ap, rfl, hge, hlt⟩
          · have hcle := h.counter_le
            have := hinst g hold
            unfold containerLt at this ⊢
            cases g <;> simp_all <;> omega
          · simp [containerLt, hlt]
        · rw [hc']
          rw [List.all_eq_true] at hch ⊢
          exact fun c hc => ih c (hch c hc)
      | menuItem => rfl
      | check => rfl
      | icon => rfl

/-- `MkOk fuel mk`: on a tree well formed at `fuel`, `mk` returns
normally and preserves the state (relative to the caller's `nextGio`
watermark). -/
def MkOk (fuel : Nat) (mk : Nat → Nat → Nat → St → Res GioItem) : Prop :=
  ∀ r app mid st, goodNode st fuel r = true →
    ∃ it st', mk r app mid st = .ok it st' ∧ PresB st.nextGio st st'

/-- A state change that does not touch the root-menu heap or the
`gio::Menu` heap is a `PresB` step for every watermark, provided the
node heap changes shape-compatibly. -/
theorem presB_nodes_only {lo : Nat} {st st' : St}
    (hm : st'.menus = st.menus) (hg : st'.gioMenus = st.gioMenus)
    (hng : st.nextGio ≤ st'.nextGio) (hcle : st.counter ≤ st'.counter)
    (hshape : ∀ r n, afind st.nodes r = some n →
      ∃ n', afind st'.nodes r = some n' ∧ n'.type_ = n.type_ ∧
        n'.children = n.children ∧ n'.ctxMenuId = n.ctxMenuId ∧
        (n.type_ = MenuItemType.submenu →
          (∀ g ∈ instElems n'.instances, g ∈ instElems n.instances ∨
            FreshSub st.counter st'.counter g) ∧
          (∀ k v, afind n.instances k = some v →
            ∃ w, afind n'.instances k = some (v ++ w) ∧
              ∀ g ∈ w, FreshSub st.counter st'.counter g))) :
    PresB lo st st' :=
  ⟨⟨hcle, hshape⟩, hng, hm, fun g _ => by rw [hg]⟩

/-- The node-shape condition for overwriting one node cell. -/
theorem shape_setNode {st : St} {r : Nat} {n n2 : MenuChild} {c' : Nat}
    (hn : afind st.nodes r = some n) (ht : n2.type_ = n.type_)
    (hc : n2.children = n.children) (hx : n2.ctxMenuId = n.ctxMenuId)
    (hcc : st.counter ≤ c')
    (hi : n.type_ = MenuItemType.submenu →
      (∀ g ∈ instElems n2.instances, g ∈ instElems n.instances ∨
        FreshSub st.counter c' g) ∧
      (∀ k v, afind n.instances k = some v →
        ∃ w, afind n2.instances k = some (v ++ w) ∧
          ∀ g ∈ w, FreshSub st.counter c' g)) :
    ∀ r' n', afind st.nodes r' = some n' →
      ∃ n'', afind (aset st.nodes r n2) r' = some n'' ∧
        n''.type_ = n'.type_ ∧ n''.children = n'.children ∧
        n''.ctxMenuId = n'.ctxMenuId ∧
        (n'.type_ = MenuItemType.submenu →
          (∀ g ∈ instElems n''.instances, g ∈ instElems n'.instances ∨
            FreshSub st.counter c' g) ∧
          (∀ k v, afind n'.instances k = some v →
            ∃ w, afind n''.instances k = some (v ++ w) ∧
              ∀ g ∈ w, FreshSub st.counter c' g)) := by
  intro r' n' h'
  by_cases hr : r = r'
  · subst hr
    rw [hn] at h'
    injection h' with h'
    subst h'
    exact ⟨n2, afind_aset_self _ _ _, ht, hc, hx, hi⟩
  · exact ⟨n', by rw [afind_aset_ne _ _ _ _ hr]; exact h', rfl, rfl, rfl,
      fun _ => ⟨fun g hg => Or.inl hg,
        fun k v hv => ⟨[], by simpa using hv, by simp⟩⟩⟩

/-- The plain-item creator succeeds on any existing non-submenu node
and preserves the state. -/
theorem create_menu_item_ok {r mid : Nat} {st : St} {n : MenuChild}
    (hn : afind st.nodes r = some n)
    (hne : n.type_ ≠ MenuItemType.submenu) {lo : Nat} :
    ∃ it st', create_gtk_item_for_menu_item r mid st = .ok it st' ∧
      PresB lo st st' := by
  unfold create_gtk_item_for_menu_item getNode
  rw [hn]
  refine ⟨_, _, rfl, presB_nodes_only rfl rfl (le_refl _) (le_refl _) ?_⟩
  exact shape_setNode hn rfl rfl rfl (le_refl _) (fun h => absurd h hne)

/-- The check-item creator succeeds on any existing non-submenu node
and preserves the state. -/
theorem create_check_item_ok {r app mid : Nat} {st : St} {n : MenuChild}
    (hn : afind st.nodes r = some n)
    (hne : n.type_ ≠ MenuItemType.submenu) {lo : Nat} :
    ∃ it st', create_gtk_item_for_check_menu_item r app mid st = .ok it st' ∧
      PresB lo st st' := by
  unfold create_gtk_item_for_check_menu_item getNode actionNewStateful
  rw [hn]
  refine ⟨_, _, rfl, presB_nodes_only rfl rfl (le_refl _) (le_refl _) ?_⟩
  exact shape_setNode hn rfl rfl rfl (le_refl _) (fun h => absurd h hne)

/-- The icon-item creator succeeds on any existing non-submenu node and
preserves the state. -/
theorem create_icon_item_ok {r mid : Nat} {st : St} {n : MenuChild}
    (hn : afind st.nodes r = some n)
    (hne : n.type_ ≠ MenuItemType.submenu) {lo : Nat} :
    ∃ it st', create_gtk_item_for_icon_menu_item r mid st = .ok it st' ∧
      PresB lo st st' := by
  unfold create_gtk_item_for_icon_menu_item getNode
  rw [hn]
  refine ⟨_, _, rfl, presB_nodes_only rfl rfl (le_refl _) (le_refl _) ?_⟩
  exact shape_setNode hn rfl rfl rfl (le_refl _) (fun h => absurd h hne)

/-- The `gio::Menu` under `mr0` exists. -/
def GioPresent (st : St) (mr0 : Nat) : Prop :=
  (afind st.gioMenus mr0).isSome = true ∧ mr0 < st.nextGio

/-- The loop invariant on a container node during recursive population
of its backend instance `c0` (whose `gio::Menu` is `mr0`): the node
exists, is a submenu, every recorded instance element has a defined
`id()`, and every element whose id is `c0` targets `mr0`. -/
def SelfInstInv (st : St) (r c0 mr0 : Nat) : Prop :=
  ∃ nr, afind st.nodes r = some nr ∧ nr.type_ = MenuItemType.submenu ∧
    ∀ g ∈ instElems nr.instances,
      (∃ gid, g.gtkId = some gid) ∧
      (g.gtkId = some c0 →
        g.menuRef = some mr0 ∧ ∃ ap, g.appRef = some ap)

/-- The container invariant transports along `NodesPres`, because every
new instance element is a `Submenu` with a fresh id (above the counter,
hence above `c0`). -/
theorem SelfInstInv_mono {st st' : St} {r c0 mr0 : Nat}
    (h : NodesPres st st') (hc0 : c0 < st.counter)
    (hq : SelfInstInv st r c0 mr0) : SelfInstInv st' r c0 mr0 := by
  obtain ⟨nr, hnr, htype, helems⟩ := hq
  obtain ⟨nr', hnr', ht', hch', hx', hi'⟩ := h.nodes_shape r nr hnr
  refine ⟨nr', hnr', ht'.trans htype, fun g hg => ?_⟩
  rcases (hi' htype).1 g hg with hold | ⟨gid, it, mr, ap, rfl, hge, hlt⟩
  · exact helems g hold
  · refine ⟨⟨gid, rfl⟩, fun heq => ?_⟩
    have : gid = c0 := by
      simpa [GtkMenuChild.gtkId] using heq
    omega

theorem nodesPres_of_eq {st st' : St} (hn : st'.nodes = st.nodes)
    (hc : st.counter ≤ st'.counter) : NodesPres st st' :=
  ⟨hc, fun r n h => ⟨n, by rw [hn]; exact h, rfl, rfl, rfl, fun _ =>
    ⟨fun g hg => Or.inl hg,
     fun k v hv => ⟨[], by simpa using hv, by simp⟩⟩⟩⟩

/-- Overwriting one `gio::Menu` at or above the watermark is a `PresB`
step. -/
theorem presB_gio_aset {lo mr : Nat} {st : St} (v : List GioItem)
    (h : lo ≤ mr) :
    PresB lo st { st with gioMenus := aset st.gioMenus mr v } :=
  ⟨nodesPres_of_eq rfl (le_refl _), le_refl _, rfl,
    fun g hg => afind_aset_ne _ _ _ _ (by omega)⟩

/-- The inner loop of `add_menu_item_with_id` succeeds when every
element has a defined id and every element matching the target id
targets the (existing) menu `mr0`, and the item being added is well
formed. -/
theorem with_id_elems_loop_ok {fuel : Nat}
    {mk : Nat → Nat → Nat → St → Res GioItem} (hmk : MkOk fuel mk)
    {lo c0 mr0 itemRef : Nat} (hlo : lo ≤ mr0) :
    ∀ (gs : List GtkMenuChild) (st : St),
      (∀ g ∈ gs, (∃ gid, g.gtkId = some gid) ∧
        (g.gtkId = some c0 → g.menuRef = some mr0 ∧ ∃ ap, g.appRef = some ap)) →
      GioPresent st mr0 →
      goodNode st fuel itemRef = true →
      ∃ st', with_id_elems_loop mk itemRef c0 gs st = .ok () st' ∧
        PresB lo st st' ∧ GioPresent st' mr0 ∧
        goodNode st' fuel itemRef = true := by
  intro gs
  induction gs with
  | nil =>
    intro st hgs hr hgood
    exact ⟨st, rfl, PresB.pb_refl lo st, hr, hgood⟩
  | cons g gs ih =>
    intro st hgs hr hgood
    obtain ⟨⟨gid, hgid⟩, hmatch⟩ := hgs g (by simp)
    unfold with_id_elems_loop
    rw [hgid]
    dsimp only
    by_cases hgc : gid = c0
    · subst hgc
      rw [if_pos rfl]
      obtain ⟨hmr, ap, hap⟩ := hmatch hgid
      rw [hap, hmr]
      dsimp only
      obtain ⟨it, st1, hmk1, hp1⟩ := hmk itemRef ap gid st hgood
      rw [hmk1]
      obtain ⟨l, hl⟩ := Option.isSome_iff_exists.mp hr.1
      have hl1 : afind st1.gioMenus mr0 = some l := by
        rw [hp1.gio_lo mr0 hr.2, hl]
      dsimp only [Res.bind]
      unfold gioAppendItem
      rw [hl1]
      dsimp only [Res.bind]
      set st2 : St := { st1 with gioMenus := aset st1.gioMenus mr0 (l ++ [it]) }
        with hst2
      have hnp12 : NodesPres st1 st2 := nodesPres_of_eq rfl (le_refl _)
      have hnp02 : NodesPres st st2 := hp1.toNodesPres.np_trans hnp12
      have hr2 : GioPresent st2 mr0 := by
        constructor
        · show (afind (aset st1.gioMenus mr0 (l ++ [it])) mr0).isSome = true
          rw [afind_aset_self]
          rfl
        · exact lt_of_lt_of_le hr.2 (le_trans hp1.nextGio_le (le_refl _))
      have hgood2 : goodNode st2 fuel itemRef = true :=
        goodNode_mono hnp02 fuel itemRef hgood
      obtain ⟨st', hloop, hp', hr', hgood'⟩ := ih st2
        (fun g' hg' => hgs g' (by simp [hg'])) hr2 hgood2
      refine ⟨st', hloop, ?_, hr', hgood'⟩
      have hlolt : lo ≤ st.nextGio := le_of_lt (lt_of_le_of_lt hlo hr.2)
      exact ((hp1.weaken hlolt).pb_trans (presB_gio_aset _ hlo)).pb_trans hp'
    · rw [if_neg hgc]
      exact ih st (fun g' hg' => hgs g' (by simp [hg'])) hr hgood

theorem instElems_cons (k : Nat) (gs : List GtkMenuChild)
    (rest : List (Nat × List GtkMenuChild)) :
    instElems ((k, gs) :: rest) = gs ++ instElems rest := by
  simp [instElems]

/-- The outer loop of `add_menu_item_with_id` over all instance
vectors. -/
theorem with_id_vecs_loop_ok {fuel : Nat}
    {mk : Nat → Nat → Nat → St → Res GioItem} (hmk : MkOk fuel mk)
    {lo c0 mr0 itemRef : Nat} (hlo : lo ≤ mr0) :
    ∀ (entries : List (Nat × List GtkMenuChild)) (st : St),
      (∀ g ∈ instElems entries, (∃ gid, g.gtkId = some gid) ∧
        (g.gtkId = some c0 → g.menuRef = some mr0 ∧ ∃ ap, g.appRef = some ap)) →
      GioPresent st mr0 →
      goodNode st fuel itemRef = true →
      ∃ st', with_id_vecs_loop mk itemRef c0 entries st = .ok () st' ∧
        PresB lo st st' ∧ GioPresent st' mr0 ∧
        goodNode st' fuel itemRef = true := by
  intro entries
  induction entries with
  | nil =>
    intro st hgs hr hgood
    exact ⟨st, rfl, PresB.pb_refl lo st, hr, hgood⟩
  | cons kv rest ih =>
    intro st hgs hr hgood
    obtain ⟨k, gs⟩ := kv
    unfold with_id_vecs_loop
    obtain ⟨st1, hloop1, hp1, hr1, hgood1⟩ :=
      with_id_elems_loop_ok hmk hlo gs st
        (fun g hg => hgs g (by rw [instElems_cons]; exact List.mem_append_left _ hg))
        hr hgood
    rw [hloop1]
    dsimp only [Res.bind]
    obtain ⟨st', hloop', hp', hr', hgood'⟩ := ih st1
      (fun g hg => hgs g (by rw [instElems_cons]; exact List.mem_append_right _ hg))
      hr1 hgood1
    exact ⟨st', hloop', hp1.pb_trans hp', hr', hgood'⟩

/-- `MenuChild::add_menu_item_with_id` succeeds under the container
invariant. -/
theorem add_with_id_ok {fuel : Nat}
    {mk : Nat → Nat → Nat → St → Res GioItem} (hmk : MkOk fuel mk)
    {lo c0 mr0 r itemRef : Nat} (hlo : lo ≤ mr0) {st : St}
    (hq : SelfInstInv st r c0 mr0) (hr : GioPresent st mr0)
    (hgood : goodNode st fuel itemRef = true) :
    ∃ st', MenuChild.add_menu_item_with_id mk r itemRef c0 st = .ok () st' ∧
      PresB lo st st' ∧ GioPresent st' mr0 ∧
      goodNode st' fuel itemRef = true := by
  obtain ⟨nr, hnr, htype, helems⟩ := hq
  unfold MenuChild.add_menu_item_with_id getNode
  rw [hnr]
  dsimp only [Res.bind]
  exact with_id_vecs_loop_ok hmk hlo nr.instances st helems hr hgood

/-- The children loop of `create_gtk_item_for_submenu` succeeds: every
logical child is recursively materialized into the fresh backend
submenu. -/
theorem submenu_items_loop_ok {fuel : Nat}
    {mk : Nat → Nat → Nat → St → Res GioItem} (hmk : MkOk fuel mk)
    {lo c0 mr0 r : Nat} (hlo : lo ≤ mr0) :
    ∀ (cs : List Nat) (st : St),
      SelfInstInv st r c0 mr0 →
      GioPresent st mr0 →
      c0 < st.counter →
      (∀ c ∈ cs, goodNode st fuel c = true) →
      ∃ st', submenu_items_loop mk r c0 cs st = .ok () st' ∧
        PresB lo st st' := by
  intro cs
  induction cs with
  | nil =>
    intro st _ _ _ _
    exact ⟨st, rfl, PresB.pb_refl lo st⟩
  | cons c cs ih =>
    intro st hq hr hc0 hcs
    unfold submenu_items_loop
    obtain ⟨st1, hadd, hp1, hr1, _⟩ :=
      add_with_id_ok hmk hlo hq hr (hcs c (by simp))
    rw [hadd]
    dsimp only [Res.bind]
    obtain ⟨st', hloop, hp'⟩ := ih st1
      (SelfInstInv_mono hp1.toNodesPres hc0 hq)
      hr1
      (lt_of_lt_of_le hc0 hp1.counter_le)
      (fun c' hc' => goodNode_mono hp1.toNodesPres fuel c' (hcs c' (by simp [hc'])))
    exact ⟨st', hloop, hp1.pb_trans hp'⟩

/-- The submenu creator succeeds on a well-formed submenu node: it
allocates a fresh backend menu, registers the instance and recursively
materializes every child. -/
theorem create_submenu_ok {fuel : Nat}
    {mk : Nat → Nat → Nat → St → Res GioItem} (hmk : MkOk fuel mk)
    {r app mid : Nat} {st : St} {n : MenuChild}
    (hn : afind st.nodes r = some n) (ht : n.type_ = MenuItemType.submenu)
    (hinst : instancesOk st.counter n.instances = true)
    (hch : ∀ c ∈ n.children, goodNode st fuel c = true) :
    ∃ it st', create_gtk_item_for_submenu mk r app mid st = .ok it st' ∧
      PresB st.nextGio st st' := by
  unfold create_gtk_item_for_submenu gioNewMenu getNode counter_next setNode
  dsimp only
  rw [hn]
  dsimp only [Res.bind]
  rw [afind_aset_self]
  dsimp only [Res.bind]
  set c0 := st.counter with hc0
  set mr0 := st.nextGio with hmr0
  set it : GioItem :=
    { label := to_gtk_mnemonicS n.text, action := Option.none,
      submenuRef := some mr0, icon := Option.none } with hit
  set n2 : MenuChild :=
    { n with instances :=
        apush n.instances mid (GtkMenuChild.submenu c0 it mr0 app) } with hn2
  set st3 : St :=
    { st with
        gioMenus := aset st.gioMenus mr0 [],
        nextGio := mr0 + 1,
        counter := c0 + 1,
        nodes := aset st.nodes r n2 } with hst3
  have hc3 : st3.counter = c0 + 1 := rfl
  have hg3 : st3.nextGio = mr0 + 1 := rfl
  have hold : ∀ g ∈ instElems n.instances, containerLt c0 g = true := by
    intro g hg
    exact List.all_eq_true.mp hinst g hg
  have hp03 : PresB st.nextGio st st3 := by
    refine ⟨⟨by omega, ?_⟩, by omega, rfl, ?_⟩
    · refine shape_setNode hn rfl rfl rfl (by omega) ?_
      intro _
      constructor
      · intro g hg
        rcases instElems_apush_sub hg with hg' | rfl
        · exact Or.inl hg'
        · exact Or.inr ⟨c0, it, mr0, app, rfl, le_refl _, by omega⟩
      · intro k v hv
        by_cases hk : mid = k
        · subst hk
          refine ⟨[GtkMenuChild.submenu c0 it mr0 app], ?_, ?_⟩
          · show afind (apush n.instances mid _) mid = _
            rw [afind_apush_self, hv]
            rfl
          · intro g hg
            simp at hg
            subst hg
            exact ⟨c0, it, mr0, app, rfl, le_refl _, by omega⟩
        · refine ⟨[], ?_, by simp⟩
          show afind (apush n.instances mid _) k = _
          rw [afind_apush_ne _ _ _ _ hk, hv]
          simp
    · intro g hg
      exact afind_aset_ne _ _ _ _ (by omega)
  have hq3 : SelfInstInv st3 r c0 mr0 := by
    refine ⟨n2, afind_aset_self _ _ _, ht, ?_⟩
    intro g hg
    rcases instElems_apush_sub hg with hg' | rfl
    · have := hold g hg'
      refine ⟨?_, ?_⟩
      · cases g <;> simp_all [containerLt, GtkMenuChild.gtkId]
      · intro heq
        exfalso
        cases g <;> simp_all [containerLt, GtkMenuChild.gtkId]
    · exact ⟨⟨c0, rfl⟩, fun _ => ⟨rfl, app, rfl⟩⟩
  have hr3 : GioPresent st3 mr0 := by
    constructor
    · show (afind (aset st.gioMenus mr0 []) mr0).isSome = true
      rw [afind_aset_self]
      rfl
    · show mr0 < mr0 + 1
      omega
  have hch3 : ∀ c ∈ n.children, goodNode st3 fuel c = true :=
    fun c hc => goodNode_mono hp03.toNodesPres fuel c (hch c hc)
  obtain ⟨st', hloop, hp'⟩ :=
    submenu_items_loop_ok hmk (le_refl mr0) n.children st3 hq3 hr3
      (by omega) hch3
  rw [hloop]
  exact ⟨it, st', rfl, hp03.pb_trans (hp'.weaken (le_refl _))⟩

/-- The master lemma: `make_gtk_menu_item` with enough fuel succeeds on
every well-formed tree and preserves the state. -/
theorem make_ok (fuel : Nat) : MkOk fuel (make_gtk_menu_item fuel) := by
  induction fuel with
  | zero =>
    intro r app mid st h
    rw [goodNode_zero] at h
    exact absurd h (by simp)
  | succ fuel ih =>
    intro r app mid st h
    rw [goodNode_succ] at h
    unfold goodNodeBody at h
    cases hn : afind st.nodes r with
    | none => rw [hn] at h; exact absurd h (by simp)
    | some n =>
      rw [hn] at h
      dsimp only at h
      rw [make_gtk_menu_item_succ]
      unfold getNode
      rw [hn]
      dsimp only [Res.bind]
      cases htype : n.type_ with
      | predefined => rw [htype] at h; exact absurd h (by simp)
      | submenu =>
        rw [htype] at h
        simp only [Bool.and_eq_true, List.all_eq_true] at h
        exact create_submenu_ok ih hn htype h.1 h.2
      | menuItem => exact create_menu_item_ok hn (by simp [htype])
      | check => exact create_check_item_ok hn (by simp [htype])
      | icon => exact create_icon_item_ok hn (by simp [htype])


/-! ## Claim C2: attachment and re-attachment -/

theorem mem_aset_sub {α : Type} {l : List (Nat × α)} {k : Nat} {v : α}
    {kv : Nat × α} (h : kv ∈ aset l k v) : kv ∈ l ∨ kv = (k, v) := by
  induction l with
  | nil => simpa [aset] using h
  | cons kw rest ih =>
    obtain ⟨k2, w⟩ := kw
    by_cases hk : k2 = k
    · subst hk
      rcases (by simpa [aset] using h : kv = (k2, v) ∨ kv ∈ rest) with h' | h'
      · exact Or.inr h'
      · exact Or.inl (by simp [h'])
    · rcases (by simpa [aset, hk] using h : kv = (k2, w) ∨ kv ∈ aset rest k v)
        with h' | h'
      · exact Or.inl (by simp [h'])
      · rcases ih h' with h'' | h''
        · exact Or.inl (by simp [h''])
        · exact Or.inr h''

theorem afind_none_not_mem {α : Type} {l : List (Nat × α)} {k : Nat}
    (h : afind l k = Option.none) (v : α) : (k, v) ∉ l := by
  induction l with
  | nil => simp
  | cons kw rest ih =>
    obtain ⟨k2, w⟩ := kw
    by_cases hk : k2 = k
    · subst hk
      simp [afind] at h
    · simp only [afind, if_neg hk] at h
      intro hmem
      rcases List.mem_cons.mp hmem with h' | h'
      · exact hk (by injection h' with h1 _; exact h1.symm)
      · exact ih h h'

/-- `goodNode` depends only on the node heap and the counter. -/
theorem goodNode_congr {st st' : St} (hn : st'.nodes = st.nodes)
    (hc : st'.counter = st.counter) (fuel r : Nat) :
    goodNode st' fuel r = goodNode st fuel r := by
  induction fuel generalizing r with
  | zero => rfl
  | succ fuel ih =>
    rw [goodNode_succ, goodNode_succ]
    unfold goodNodeBody
    rw [hn, hc]
    cases afind st.nodes r with
    | none => rfl
    | some n =>
      dsimp only
      cases n.type_ with
      | submenu =>
        have hall : n.children.all (goodNode st' fuel) =
            n.children.all (goodNode st fuel) := by
          induction n.children with
          | nil => rfl
          | cons c cs ihc => simp [List.all_cons, ih c, ihc]
        rw [hall]
      | predefined => rfl
      | menuItem => rfl
      | check => rfl
      | icon => rfl

/-- The filtered attachment loop of `Menu::add_menu_item_with_id`
succeeds when every attachment keyed by the target id has the (existing)
root menu `mr0`. -/
theorem menu_bars_with_id_loop_ok {fuel : Nat}
    {mk : Nat → Nat → Nat → St → Res GioItem} (hmk : MkOk fuel mk)
    {lo tid mr0 itemRef : Nat} (hlo : lo ≤ mr0) :
    ∀ (bs : List (Nat × GtkMenuBar)) (st : St),
      (∀ kv ∈ bs, kv.1 = tid → kv.2.menu = mr0) →
      GioPresent st mr0 →
      goodNode st fuel itemRef = true →
      ∃ st', menu_bars_with_id_loop mk itemRef tid bs st = .ok () st' ∧
        PresB lo st st' ∧ GioPresent st' mr0 ∧
        goodNode st' fuel itemRef = true := by
  intro bs
  induction bs with
  | nil =>
    intro st hbs hr hgood
    exact ⟨st, rfl, PresB.pb_refl lo st, hr, hgood⟩
  | cons kv rest ih =>
    intro st hbs hr hgood
    obtain ⟨menuId, bar⟩ := kv
    unfold menu_bars_with_id_loop
    by_cases hkt : menuId = tid
    · rw [if_pos hkt]
      have hbm : bar.menu = mr0 := hbs (menuId, bar) (by simp) hkt
      obtain ⟨it, st1, hmk1, hp1⟩ := hmk itemRef bar.app menuId st hgood
      rw [hmk1]
      obtain ⟨l, hl⟩ := Option.isSome_iff_exists.mp hr.1
      have hl1 : afind st1.gioMenus mr0 = some l := by
        rw [hp1.gio_lo mr0 hr.2, hl]
      dsimp only [Res.bind]
      unfold gioAppendItem
      rw [hbm, hl1]
      dsimp only [Res.bind]
      set st2 : St := { st1 with gioMenus := aset st1.gioMenus mr0 (l ++ [it]) }
      have hnp12 : NodesPres st1 st2 := nodesPres_of_eq rfl (le_refl _)
      have hnp02 : NodesPres st st2 := hp1.toNodesPres.np_trans hnp12
      have hr2 : GioPresent st2 mr0 := by
        constructor
        · show (afind (aset st1.gioMenus mr0 (l ++ [it])) mr0).isSome = true
          rw [afind_aset_self]
          rfl
        · exact lt_of_lt_of_le hr.2 hp1.nextGio_le
      obtain ⟨st', hloop, hp', hr', hgood'⟩ := ih st2
        (fun kv' hkv' => hbs kv' (by simp [hkv']))
        hr2 (goodNode_mono hnp02 fuel itemRef hgood)
      refine ⟨st', hloop, ?_, hr', hgood'⟩
      have hlolt : lo ≤ st.nextGio := le_of_lt (lt_of_le_of_lt hlo hr.2)
      exact ((hp1.weaken hlolt).pb_trans (presB_gio_aset _ hlo)).pb_trans hp'
    · rw [if_neg hkt]
      exact ih st (fun kv' hkv' => hbs kv' (by simp [hkv'])) hr hgood

/-- The items loop of `init_for_gtk_window` succeeds on well-formed
children: each child is materialized into the freshly registered menu
bar. -/
theorem init_items_loop_ok (fuel : Nat) {lo menuRef tid mr0 : Nat}
    (hlo : lo ≤ mr0) :
    ∀ (cs : List Nat) (st : St) (m : Menu),
      afind st.menus menuRef = some m →
      (∀ kv ∈ m.instances, kv.1 = tid → kv.2.menu = mr0) →
      GioPresent st mr0 →
      (∀ c ∈ cs, goodNode st fuel c = true) →
      ∃ st', init_items_loop fuel menuRef tid cs st = .ok () st' ∧
        PresB lo st st' := by
  intro cs
  induction cs with
  | nil =>
    intro st m _ _ _ _
    exact ⟨st, rfl, PresB.pb_refl lo st⟩
  | cons c cs ih =>
    intro st m hm hbars hr hcs
    unfold init_items_loop Menu.add_menu_item_with_id getMenu
    rw [hm]
    dsimp only [Res.bind]
    obtain ⟨st1, hloop1, hp1, hr1, _⟩ :=
      menu_bars_with_id_loop_ok (make_ok fuel) hlo m.instances st hbars hr
        (hcs c (by simp))
    rw [hloop1]
    dsimp only [Res.bind]
    obtain ⟨st', hloop', hp'⟩ := ih st1 m
      (by rw [hp1.menus_eq]; exact hm)
      hbars hr1
      (fun c' hc' => goodNode_mono hp1.toNodesPres fuel c' (hcs c' (by simp [hc'])))
    exact ⟨st', hloop', hp1.pb_trans hp'⟩

/-- C2 (amended): provided every node in the menu's tree is of a kind
whose backend construction is implemented (no `Predefined` node, whose
construction is `todo!()`), a first call of `init_for_gtk_window` on a
window that has an application succeeds and registers a `MenuBar`
backend instance under that window's attachment id; any second call for
the same window identity returns the `AlreadyInitialized` error and
leaves the entire state — in particular the first attachment's
registered instance — unchanged. -/
theorem c2_init_and_reattach (fuel : Nat) (st : St) (menuRef : Nat)
    (w : Window) (appv : Nat) (m : Menu)
    (happ : w.app = some appv)
    (hm : afind st.menus menuRef = some m)
    (hfresh : afind m.instances w.ptrId = Option.none)
    (hch : ∀ c ∈ m.children, goodNode st fuel c = true) :
    ∃ st' bar, Menu.init_for_gtk_window fuel menuRef w st = .ok () st' ∧
      afind st'.menus menuRef =
        some { m with instances := aset m.instances w.ptrId bar } ∧
      bar.isBar = true ∧
      Menu.init_for_gtk_window fuel menuRef w st' =
        .err .alreadyInitialized st' := by
  have hbar : (GtkMenuBar.menuBar st.nextGio appv).menu = st.nextGio := rfl
  set mr0 := st.nextGio with hmr0
  set bar : GtkMenuBar := .menuBar mr0 appv with hbarDef
  set m2 : Menu := { m with instances := aset m.instances w.ptrId bar }
    with hm2
  set st2 : St :=
    { st with gioMenus := aset st.gioMenus mr0 [], nextGio := mr0 + 1,
              menus := aset st.menus menuRef m2 } with hst2
  have hm2find : afind st2.menus menuRef = some m2 := by
    show afind (aset st.menus menuRef m2) menuRef = some m2
    exact afind_aset_self _ _ _
  have hbars : ∀ kv ∈ m2.instances, kv.1 = w.ptrId → kv.2.menu = mr0 := by
    intro kv hkv h1
    rcases mem_aset_sub hkv with hold | rfl
    · exfalso
      obtain ⟨k, v⟩ := kv
      exact afind_none_not_mem hfresh v (h1 ▸ hold)
    · rfl
  have hr2 : GioPresent st2 mr0 := by
    constructor
    · show (afind (aset st.gioMenus mr0 []) mr0).isSome = true
      rw [afind_aset_self]
      rfl
    · show mr0 < mr0 + 1
      omega
  have hch2 : ∀ c ∈ m2.children, goodNode st2 fuel c = true := by
    intro c hc
    rw [@goodNode_congr st st2 rfl rfl]
    exact hch c hc
  obtain ⟨st3, hloop, hp⟩ := init_items_loop_ok fuel (le_refl mr0)
    m2.children st2 m2 hm2find hbars hr2 hch2
  have hm3find : afind st3.menus menuRef = some m2 := by
    rw [hp.menus_eq]
    exact hm2find
  refine ⟨st3, bar, ?_, hm3find, rfl, ?_⟩
  · unfold Menu.init_for_gtk_window getMenu GtkMenuBar.new gioNewMenu setMenu
    rw [happ]
    dsimp only [Res.bind]
    rw [hm]
    dsimp only [Res.bind]
    rw [hfresh]
    dsimp only [Res.bind]
    rw [afind_aset_self]
    dsimp only [Res.bind]
    rw [← hmr0, ← hbarDef, ← hm2, ← hst2]
    rw [hloop]
    dsimp only [Res.bind]
    rw [hm3find]
    dsimp only [Res.bind]
    rw [show afind m2.instances w.ptrId = some bar from afind_aset_self _ _ _]
  · unfold Menu.init_for_gtk_window getMenu
    rw [happ]
    dsimp only [Res.bind]
    rw [hm3find]
    dsimp only [Res.bind]
    rw [show afind m2.instances w.ptrId = some bar from afind_aset_self _ _ _]


/-- The window used in the C2 scenarios. -/
def wC2 : Window := ⟨7, some 1⟩

/-- A predefined-kind node (whose backend construction is
`todo!()`). -/
def nPred : MenuChild :=
  { nLeaf with type_ := MenuItemType.predefined,
               predefinedItemKind := some PredefinedMenuItemKind.copy }

/-- A root menu holding the single child node `0`. -/
def mC2 : Menu := { id := "m2", instances := [], ctxMenuId := 3, children := [0] }

/-- A state with the menu `mC2` over a plain leaf child. -/
def stC2 : St :=
  { st_empty with counter := 20, menus := [(0, mC2)], nextMenu := 1,
                  nodes := [(0, nLeaf)], nextNode := 1 }

/-- The same state, but the child is a `Predefined` node. -/
def stC2p : St := { stC2 with nodes := [(0, nPred)] }

/-- C2 (counterexample): the claim says a first call of
`init_for_gtk_window` on a window with an application succeeds for
every menu.  For a menu containing a `Predefined` child the call hits
the `todo!()` arm of `make_gtk_menu_item` and panics, even though the
window has an application and the attachment id is fresh. -/
theorem c2_init_counterexample :
    wC2.app.isSome = true ∧
      afind stC2p.menus 0 = some mC2 ∧
      afind mC2.instances wC2.ptrId = Option.none ∧
      (Menu.init_for_gtk_window 2 0 wC2 stC2p).is_panicked = true := by
  refine ⟨rfl, rfl, rfl, by decide⟩

/-- Witness for `c2_init_and_reattach` at the concrete state `stC2`:
the first call returns normally and the second returns
`AlreadyInitialized` leaving the state unchanged. -/
theorem c2_init_witness :
    (Menu.init_for_gtk_window 2 0 wC2 stC2).is_ok = true ∧
      (match Menu.init_for_gtk_window 2 0 wC2 stC2 with
        | .ok _ st' => Menu.init_for_gtk_window 2 0 wC2 st' =
            .err .alreadyInitialized st'
        | _ => False) := by
  obtain ⟨st', bar, h1, h2, h3, h4⟩ := c2_init_and_reattach 2 stC2 0 wC2 1 mC2
    rfl rfl rfl (by decide)
  rw [h1]
  exact ⟨rfl, h4⟩


/-! ## Claim C7: insertion ordering in logical and backend containers -/

/-- The effect of `append_item` / `insert_item(position as i32, ..)` on
the contents of one `gio::Menu`. -/
def gio_op_apply (op : AddOp) (l : List GioItem) (it : GioItem) :
    List GioItem :=
  match op with
  | .append => l ++ [it]
  | .insert i =>
    if 0 ≤ intoI32 i ∧ intoI32 i ≤ (l.length : Int) then
      l.insertIdx (intoI32 i).toNat it
    else l ++ [it]

theorem gio_op_apply_insert_zero (l : List GioItem) (it : GioItem) :
    gio_op_apply (.insert 0) l it = it :: l := by
  unfold gio_op_apply intoI32
  norm_num

/-- One backend mutation step (`append_item` or `insert_item`) on a
present menu. -/
theorem gio_op_step {st : St} {mr : Nat} {l : List GioItem} (op : AddOp)
    (it : GioItem) (hl : afind st.gioMenus mr = some l) :
    (match op with
      | AddOp.append => gioAppendItem mr it st
      | AddOp.insert i => gioInsertItem mr (intoI32 i) it st) =
      Res.ok () { st with gioMenus := aset st.gioMenus mr (gio_op_apply op l it) } := by
  cases op with
  | append =>
    unfold gioAppendItem
    rw [hl]
    rfl
  | insert i =>
    unfold gioInsertItem
    rw [hl]
    unfold gio_op_apply
    rfl

/-- The element loop of `MenuChild::add_menu_item` over one instance
vector: each (container-variant) element's backend menu gets exactly
one new backend item at the requested position; untargeted menus are
untouched. -/
theorem op_elems_loop_exact {fuel : Nat}
    {mk : Nat → Nat → Nat → St → Res GioItem} (hmk : MkOk fuel mk)
    {itemRef : Nat} (op : AddOp) :
    ∀ (gs : List GtkMenuChild) (st : St),
      (∀ g ∈ gs, ∃ gid ap mr, g.gtkId = some gid ∧ g.appRef = some ap ∧
        g.menuRef = some mr ∧ mr < st.nextGio ∧
        (afind st.gioMenus mr).isSome = true) →
      (gs.map GtkMenuChild.menuRef).Pairwise (· ≠ ·) →
      goodNode st fuel itemRef = true →
      ∃ st', op_elems_loop mk itemRef op gs st = .ok () st' ∧
        NodesPres st st' ∧ st'.menus = st.menus ∧
        st.nextGio ≤ st'.nextGio ∧
        (∀ m', m' < st.nextGio →
          (∀ g ∈ gs, g.menuRef ≠ some m') →
          afind st'.gioMenus m' = afind st.gioMenus m') ∧
        (∀ g ∈ gs, ∀ mr, g.menuRef = some mr →
          ∃ it l, afind st.gioMenus mr = some l ∧
            afind st'.gioMenus mr = some (gio_op_apply op l it)) := by
  intro gs
  induction gs with
  | nil =>
    intro st hgs hpw hgood
    exact ⟨st, rfl, NodesPres.np_refl st, rfl, le_refl _,
      fun m' _ _ => rfl, by simp⟩
  | cons g gs ih =>
    intro st hgs hpw hgood
    obtain ⟨gid, ap, mr, hgid, hap, hmr, hlt, hsome⟩ := hgs g (by simp)
    obtain ⟨l, hl⟩ := Option.isSome_iff_exists.mp hsome
    rw [List.map_cons, List.pairwise_cons] at hpw
    obtain ⟨hhead, hpw'⟩ := hpw
    unfold op_elems_loop
    rw [hap, hgid, hmr]
    dsimp only
    obtain ⟨it, st1, hmk1, hp1⟩ := hmk itemRef ap gid st hgood
    rw [hmk1]
    dsimp only [Res.bind]
    have hl1 : afind st1.gioMenus mr = some l := by
      rw [hp1.gio_lo mr hlt, hl]
    rw [gio_op_step op it hl1]
    dsimp only [Res.bind]
    set st2 : St :=
      { st1 with gioMenus := aset st1.gioMenus mr (gio_op_apply op l it) }
      with hst2
    have hnp12 : NodesPres st1 st2 := nodesPres_of_eq rfl (le_refl _)
    have hnp02 : NodesPres st st2 := hp1.toNodesPres.np_trans hnp12
    have hgio2 : ∀ m', m' < st.nextGio → m' ≠ mr →
        afind st2.gioMenus m' = afind st.gioMenus m' := by
      intro m' hm' hne
      show afind (aset st1.gioMenus mr (gio_op_apply op l it)) m' = _
      rw [afind_aset_ne _ _ _ _ (fun h => hne h.symm), hp1.gio_lo m' hm']
    have hmr2 : afind st2.gioMenus mr = some (gio_op_apply op l it) := by
      show afind (aset st1.gioMenus mr (gio_op_apply op l it)) mr = _
      rw [afind_aset_self]
    have hnextGio2 : st.nextGio ≤ st2.nextGio := hp1.nextGio_le
    have hne_of_mem : ∀ g' ∈ gs, g'.menuRef ≠ some mr := by
      intro g' hg' heq
      exact hhead g'.menuRef (List.mem_map_of_mem _ hg') (by rw [hmr, heq])
    obtain ⟨st', hloop, hnp', hmenus', hng', hpres', hexact'⟩ := ih st2
      (by
        intro g' hg'
        obtain ⟨gid', ap', mr', h1, h2, h3, h4, h5⟩ := hgs g' (by simp [hg'])
        refine ⟨gid', ap', mr', h1, h2, h3, lt_of_lt_of_le h4 hnextGio2, ?_⟩
        have : mr' ≠ mr := by
          intro h
          exact hne_of_mem g' hg' (by rw [h3, h])
        rw [hgio2 mr' h4 this]
        exact h5)
      hpw'
      (goodNode_mono hnp02 fuel itemRef hgood)
    refine ⟨st', hloop, hnp02.np_trans hnp', ?_, ?_, ?_, ?_⟩
    · rw [hmenus']
      exact hp1.menus_eq
    · exact le_trans hnextGio2 hng'
    · intro m' hm' hnotin
      have hnm : m' ≠ mr := by
        intro h
        exact hnotin g (by simp) (by rw [hmr, h])
      rw [hpres' m' (lt_of_lt_of_le hm' hnextGio2)
          (fun g' hg' => hnotin g' (by simp [hg'])),
        hgio2 m' hm' hnm]
    · intro g' hg' mr' hmr'
      rcases List.mem_cons.mp hg' with rfl | hg'
      · rw [hmr] at hmr'
        injection hmr' with hmr'
        subst hmr'
        refine ⟨it, l, hl, ?_⟩
        rw [hpres' mr (lt_of_lt_of_le hlt hnextGio2)
            (fun g'' hg'' heq => hne_of_mem g'' hg'' heq), hmr2]
      · obtain ⟨it', l', hl', hfin⟩ := hexact' g' hg' mr' hmr'
        have hmrne : mr' ≠ mr := by
          intro h
          exact hne_of_mem g' hg' (by rw [hmr', h])
        obtain ⟨gid', ap', mr'', h1, h2, h3, h4, h5⟩ := hgs g' (by simp [hg'])
        rw [h3] at hmr'
        injection hmr' with hmr'
        subst hmr'
        refine ⟨it', l', ?_, hfin⟩
        rw [← hgio2 _ h4 hmrne]
        exact hl'


/-- The outer loop of `MenuChild::add_menu_item` over all instance
vectors: same conclusions, over all elements of all vectors. -/
theorem op_vecs_loop_exact {fuel : Nat}
    {mk : Nat → Nat → Nat → St → Res GioItem} (hmk : MkOk fuel mk)
    {itemRef : Nat} (op : AddOp) :
    ∀ (entries : List (Nat × List GtkMenuChild)) (st : St),
      (∀ g ∈ instElems entries, ∃ gid ap mr, g.gtkId = some gid ∧
        g.appRef = some ap ∧ g.menuRef = some mr ∧ mr < st.nextGio ∧
        (afind st.gioMenus mr).isSome = true) →
      ((instElems entries).map GtkMenuChild.menuRef).Pairwise (· ≠ ·) →
      goodNode st fuel itemRef = true →
      ∃ st', op_vecs_loop mk itemRef op entries st = .ok () st' ∧
        NodesPres st st' ∧ st'.menus = st.menus ∧
        st.nextGio ≤ st'.nextGio ∧
        (∀ m', m' < st.nextGio →
          (∀ g ∈ instElems entries, g.menuRef ≠ some m') →
          afind st'.gioMenus m' = afind st.gioMenus m') ∧
        (∀ g ∈ instElems entries, ∀ mr, g.menuRef = some mr →
          ∃ it l, afind st.gioMenus mr = some l ∧
            afind st'.gioMenus mr = some (gio_op_apply op l it)) := by
  intro entries
  induction entries with
  | nil =>
    intro st hgs hpw hgood
    exact ⟨st, rfl, NodesPres.np_refl st, rfl, le_refl _,
      fun m' _ _ => rfl, by simp [instElems]⟩
  | cons kv rest ih =>
    intro st hgs hpw hgood
    obtain ⟨k, gs⟩ := kv
    rw [instElems_cons] at hgs hpw
    rw [List.map_append] at hpw
    obtain ⟨hpw1, hpw2, hcross⟩ := List.pairwise_append.mp hpw
    unfold op_vecs_loop
    obtain ⟨st2, hloop1, hnp1, hmenus1, hng1, hpres1, hexact1⟩ :=
      op_elems_loop_exact hmk op gs st
        (fun g hg => hgs g (List.mem_append_left _ hg)) hpw1 hgood
    rw [hloop1]
    dsimp only [Res.bind]
    have hcross' : ∀ g ∈ gs, ∀ g' ∈ instElems rest,
        g.menuRef ≠ g'.menuRef := by
      intro g hg g' hg'
      exact hcross _ (List.mem_map_of_mem _ hg) _ (List.mem_map_of_mem _ hg')
    have hrest2 : ∀ g ∈ instElems rest, ∃ gid ap mr, g.gtkId = some gid ∧
        g.appRef = some ap ∧ g.menuRef = some mr ∧ mr < st2.nextGio ∧
        (afind st2.gioMenus mr).isSome = true := by
      intro g hg
      obtain ⟨gid, ap, mr, h1, h2, h3, h4, h5⟩ :=
        hgs g (List.mem_append_right _ hg)
      refine ⟨gid, ap, mr, h1, h2, h3, lt_of_lt_of_le h4 hng1, ?_⟩
      rw [hpres1 mr h4 ?_]
      · exact h5
      · intro g'' hg'' heq
        exact hcross' g'' hg'' g hg (by rw [heq, h3])
    obtain ⟨st', hloop2, hnp2, hmenus2, hng2, hpres2, hexact2⟩ := ih st2
      hrest2 hpw2 (goodNode_mono hnp1 fuel itemRef hgood)
    refine ⟨st', hloop2, hnp1.np_trans hnp2, by rw [hmenus2, hmenus1],
      le_trans hng1 hng2, ?_, ?_⟩
    · intro m' hm' hnotin
      rw [hpres2 m' (lt_of_lt_of_le hm' hng1)
          (fun g hg => hnotin g (List.mem_append_right _ hg)),
        hpres1 m' hm' (fun g hg => hnotin g (List.mem_append_left _ hg))]
    · intro g hg mr hmr
      rcases List.mem_append.mp hg with hg' | hg'
      · obtain ⟨it, l, hl, hfin⟩ := hexact1 g hg' mr hmr
        refine ⟨it, l, hl, ?_⟩
        rw [hpres2 mr ?_ ?_]
        · exact hfin
        · obtain ⟨gid, ap, mr', h1, h2, h3, h4, h5⟩ :=
            hgs g (List.mem_append_left _ hg')
          rw [h3] at hmr
          injection hmr with hmr
          subst hmr
          exact lt_of_lt_of_le h4 hng1
        · intro g' hg' heq
          exact hcross' g (by assumption) g' hg' (by rw [hmr, heq])
      · obtain ⟨it, l, hl, hfin⟩ := hexact2 g hg' mr hmr
        refine ⟨it, l, ?_, hfin⟩
        rw [← hpres1 mr ?_ ?_]
        · exact hl
        · obtain ⟨gid, ap, mr', h1, h2, h3, h4, h5⟩ :=
            hgs g (List.mem_append_right _ hg')
          rw [h3] at hmr
          injection hmr with hmr
          subst hmr
          exact h4
        · intro g' hg'' heq
          exact hcross' g' hg'' g hg' (by rw [heq, hmr])

/-- `MenuChild::add_menu_item` (general position): the logical children
sequence is mutated as requested, and every already-attached backend
container of this submenu receives exactly one new backend item at the
corresponding position. -/
theorem menuchild_add_exact {fuel : Nat} (op : AddOp) (st st1 : St)
    (selfRef itemRef : Nat) (n : MenuChild) (cs' : List Nat)
    (hn : afind st.nodes selfRef = some n)
    (hvec : (match op with
      | AddOp.append => some (n.children ++ [itemRef])
      | AddOp.insert i => vec_insert n.children i itemRef) = some cs')
    (hst1 : st1 = setNode selfRef { n with children := cs' } st)
    (hinst : ∀ g ∈ instElems n.instances, ∃ gid ap mr, g.gtkId = some gid ∧
      g.appRef = some ap ∧ g.menuRef = some mr ∧ mr < st.nextGio ∧
      (afind st.gioMenus mr).isSome = true)
    (hpair : ((instElems n.instances).map GtkMenuChild.menuRef).Pairwise (· ≠ ·))
    (hgood : goodNode st1 fuel itemRef = true) :
    ∃ st', MenuChild.add_menu_item fuel selfRef itemRef op st = .ok () st' ∧
      (∃ n', afind st'.nodes selfRef = some n' ∧ n'.children = cs') ∧
      (∀ g ∈ instElems n.instances, ∀ mr, g.menuRef = some mr →
        ∃ it l, afind st.gioMenus mr = some l ∧
          afind st'.gioMenus mr = some (gio_op_apply op l it)) := by
  have hstep : MenuChild.add_menu_item fuel selfRef itemRef op st =
      op_vecs_loop (make_gtk_menu_item fuel) itemRef op n.instances st1 := by
    have hn1 : afind st1.nodes selfRef = some { n with children := cs' } := by
      rw [hst1]
      exact afind_aset_self _ _ _
    cases op with
    | append =>
      have hvec2 : some (n.children ++ [itemRef]) = some cs' := hvec
      injection hvec2 with hvec2
      unfold MenuChild.add_menu_item getNode
      rw [hn]
      dsimp only [Res.bind]
      rw [hvec2, ← hst1, hn1]
    | insert i =>
      have hvec2 : vec_insert n.children i itemRef = some cs' := hvec
      unfold MenuChild.add_menu_item getNode
      rw [hn]
      dsimp only [Res.bind]
      rw [hvec2]
      dsimp only [Res.bind]
      rw [← hst1, hn1]
  have hinst1 : ∀ g ∈ instElems n.instances, ∃ gid ap mr, g.gtkId = some gid ∧
      g.appRef = some ap ∧ g.menuRef = some mr ∧ mr < st1.nextGio ∧
      (afind st1.gioMenus mr).isSome = true := by
    subst hst1
    exact hinst
  obtain ⟨st', hloop, hnp, hmenus, hng, hpres, hexact⟩ :=
    op_vecs_loop_exact (make_ok fuel) op n.instances st1 hinst1 hpair hgood
  refine ⟨st', by rw [hstep, hloop], ?_, ?_⟩
  · have hn1 : afind st1.nodes selfRef = some { n with children := cs' } := by
      subst hst1
      exact afind_aset_self _ _ _
    obtain ⟨n', hn', _, hch', _, _⟩ := hnp.nodes_shape selfRef _ hn1
    exact ⟨n', hn', hch'⟩
  · intro g hg mr hmr
    obtain ⟨it, l, hl, hfin⟩ := hexact g hg mr hmr
    refine ⟨it, l, ?_, hfin⟩
    subst hst1
    exact hl


/-- The attachment loop of `Menu::add_menu_item`: each attached backend
root `gio::Menu` gets exactly one new backend item at the requested
position; untargeted menus are untouched. -/
theorem menu_bars_loop_exact {fuel : Nat}
    {mk : Nat → Nat → Nat → St → Res GioItem} (hmk : MkOk fuel mk)
    {itemRef : Nat} (op : AddOp) :
    ∀ (entries : List (Nat × GtkMenuBar)) (st : St),
      (∀ e ∈ entries, e.2.menu < st.nextGio ∧
        (afind st.gioMenus e.2.menu).isSome = true) →
      (entries.map (fun e => e.2.menu)).Pairwise (· ≠ ·) →
      goodNode st fuel itemRef = true →
      ∃ st', menu_bars_loop mk itemRef op entries st = .ok () st' ∧
        NodesPres st st' ∧ st'.menus = st.menus ∧
        st.nextGio ≤ st'.nextGio ∧
        (∀ m', m' < st.nextGio →
          (∀ e ∈ entries, e.2.menu ≠ m') →
          afind st'.gioMenus m' = afind st.gioMenus m') ∧
        (∀ e ∈ entries, ∃ it l, afind st.gioMenus e.2.menu = some l ∧
          afind st'.gioMenus e.2.menu = some (gio_op_apply op l it)) := by
  intro entries
  induction entries with
  | nil =>
    intro st hgs hpw hgood
    exact ⟨st, rfl, NodesPres.np_refl st, rfl, le_refl _,
      fun m' _ _ => rfl, by simp⟩
  | cons e rest ih =>
    intro st hgs hpw hgood
    obtain ⟨menuId, bar⟩ := e
    obtain ⟨hlt, hsome⟩ := hgs (menuId, bar) (by simp)
    obtain ⟨l, hl⟩ := Option.isSome_iff_exists.mp hsome
    rw [List.map_cons, List.pairwise_cons] at hpw
    obtain ⟨hhead, hpw2⟩ := hpw
    unfold menu_bars_loop
    obtain ⟨it, st1, hmk1, hp1⟩ := hmk itemRef bar.app menuId st hgood
    rw [hmk1]
    dsimp only [Res.bind]
    have hl1 : afind st1.gioMenus bar.menu = some l := by
      rw [hp1.gio_lo bar.menu hlt, hl]
    rw [gio_op_step op it hl1]
    dsimp only [Res.bind]
    set st2 : St :=
      { st1 with gioMenus := aset st1.gioMenus bar.menu (gio_op_apply op l it) }
      with hst2
    have hnp12 : NodesPres st1 st2 := nodesPres_of_eq rfl (le_refl _)
    have hnp02 : NodesPres st st2 := hp1.toNodesPres.np_trans hnp12
    have hgio2 : ∀ m', m' < st.nextGio → m' ≠ bar.menu →
        afind st2.gioMenus m' = afind st.gioMenus m' := by
      intro m' hm' hne
      show afind (aset st1.gioMenus bar.menu (gio_op_apply op l it)) m' = _
      rw [afind_aset_ne _ _ _ _ (fun h => hne h.symm), hp1.gio_lo m' hm']
    have hmr2 : afind st2.gioMenus bar.menu = some (gio_op_apply op l it) := by
      show afind (aset st1.gioMenus bar.menu (gio_op_apply op l it)) bar.menu = _
      rw [afind_aset_self]
    have hnextGio2 : st.nextGio ≤ st2.nextGio := hp1.nextGio_le
    have hne_of_mem : ∀ e' ∈ rest, e'.2.menu ≠ bar.menu := by
      intro e' he' heq
      exact hhead e'.2.menu (List.mem_map_of_mem _ he') heq.symm
    obtain ⟨st', hloop, hnp3, hmenus3, hng3, hpres3, hexact3⟩ := ih st2
      (by
        intro e' he'
        obtain ⟨h4, h5⟩ := hgs e' (by simp [he'])
        refine ⟨lt_of_lt_of_le h4 hnextGio2, ?_⟩
        rw [hgio2 e'.2.menu h4 (hne_of_mem e' he')]
        exact h5)
      hpw2
      (goodNode_mono hnp02 fuel itemRef hgood)
    refine ⟨st', hloop, hnp02.np_trans hnp3, ?_, ?_, ?_, ?_⟩
    · rw [hmenus3]
      exact hp1.menus_eq
    · exact le_trans hnextGio2 hng3
    · intro m' hm' hnotin
      have hnm : m' ≠ bar.menu := by
        intro h
        exact hnotin (menuId, bar) (by simp) h.symm
      rw [hpres3 m' (lt_of_lt_of_le hm' hnextGio2)
          (fun e' he' => hnotin e' (by simp [he'])),
        hgio2 m' hm' hnm]
    · intro e' he'
      rcases List.mem_cons.mp he' with heq | he'
      · subst heq
        refine ⟨it, l, hl, ?_⟩
        rw [hpres3 bar.menu (lt_of_lt_of_le hlt hnextGio2)
            (fun e'' he'' => hne_of_mem e'' he''), hmr2]
      · obtain ⟨it2, l2, hl2, hfin⟩ := hexact3 e' he'
        obtain ⟨h4, _⟩ := hgs e' (by simp [he'])
        refine ⟨it2, l2, ?_, hfin⟩
        rw [← hgio2 e'.2.menu h4 (hne_of_mem e' he')]
        exact hl2

/-- `Menu::add_menu_item` (general position): the logical children
sequence is mutated as requested, and every attached backend root
`gio::Menu` receives exactly one new backend item at the corresponding
position. -/
theorem menu_add_exact {fuel : Nat} (op : AddOp) (st st1 : St)
    (menuRef itemRef : Nat) (m : Menu) (cs' : List Nat)
    (hm : afind st.menus menuRef = some m)
    (hvec : (match op with
      | AddOp.append => some (m.children ++ [itemRef])
      | AddOp.insert i => vec_insert m.children i itemRef) = some cs')
    (hst1 : st1 = setMenu menuRef { m with children := cs' } st)
    (hinst : ∀ e ∈ m.instances, e.2.menu < st.nextGio ∧
      (afind st.gioMenus e.2.menu).isSome = true)
    (hpair : (m.instances.map (fun e => e.2.menu)).Pairwise (· ≠ ·))
    (hgood : goodNode st1 fuel itemRef = true) :
    ∃ st', Menu.add_menu_item fuel menuRef itemRef op st = .ok () st' ∧
      (∃ m', afind st'.menus menuRef = some m' ∧ m'.children = cs' ∧
        m'.instances = m.instances) ∧
      (∀ e ∈ m.instances, ∃ it l, afind st.gioMenus e.2.menu = some l ∧
        afind st'.gioMenus e.2.menu = some (gio_op_apply op l it)) := by
  have hm1 : afind st1.menus menuRef = some { m with children := cs' } := by
    rw [hst1]
    exact afind_aset_self _ _ _
  have hstep : Menu.add_menu_item fuel menuRef itemRef op st =
      menu_bars_loop (make_gtk_menu_item fuel) itemRef op m.instances st1 := by
    cases op with
    | append =>
      have hvec2 : some (m.children ++ [itemRef]) = some cs' := hvec
      injection hvec2 with hvec2
      unfold Menu.add_menu_item getMenu
      rw [hm]
      dsimp only [Res.bind]
      rw [hvec2, ← hst1, hm1]
    | insert i =>
      have hvec2 : vec_insert m.children i itemRef = some cs' := hvec
      unfold Menu.add_menu_item getMenu
      rw [hm]
      dsimp only [Res.bind]
      rw [hvec2]
      dsimp only [Res.bind]
      rw [← hst1, hm1]
  have hinst1 : ∀ e ∈ m.instances, e.2.menu < st1.nextGio ∧
      (afind st1.gioMenus e.2.menu).isSome = true := by
    subst hst1
    exact hinst
  obtain ⟨st', hloop, hnp, hmenus, hng, hpres, hexact⟩ :=
    menu_bars_loop_exact (make_ok fuel) op m.instances st1 hinst1 hpair hgood
  refine ⟨st', by rw [hstep, hloop], ?_, ?_⟩
  · refine ⟨{ m with children := cs' }, ?_, rfl, rfl⟩
    rw [hmenus]
    exact hm1
  · intro e he
    obtain ⟨it, l, hl, hfin⟩ := hexact e he
    refine ⟨it, l, ?_, hfin⟩
    subst hst1
    exact hl


/-- The backend submenu item held by the pre-attached instance of the
C7 container node. -/
def gSubC7 : GioItem :=
  { label := "Sub", action := Option.none, submenuRef := some 1,
    icon := Option.none }

/-- A submenu container node holding three children, already attached
once (instance keyed by attachment `5`, backend submenu id `6`, backend
`gio::Menu` `1`, application `0`). -/
def nC7 : MenuChild :=
  { id := "s7", text := "Sub", enabled := true, accelerator := Option.none,
    checked := false, icon := Option.none, type_ := .submenu,
    predefinedItemKind := Option.none,
    instances := [(5, [GtkMenuChild.submenu 6 gSubC7 1 0])],
    ctxMenuId := 4, children := [10, 11, 12] }

/-- A root menu holding three children, attached once to window `7`
(root backend `gio::Menu` `2`, application `0`). -/
def mC7 : Menu :=
  { id := "m7", instances := [(7, GtkMenuBar.menuBar 2 0)], ctxMenuId := 3,
    children := [10, 11, 12] }

/-- A fresh plain item to be inserted. -/
def nNewC7 : MenuChild := { nLeaf with id := "new" }

/-- A state holding the attached container node `nC7` (ref `1`), the
attached root menu `mC7` (ref `0`), the fresh plain node (ref `21`) and
a `Predefined` node (ref `22`). -/
def stC7 : St :=
  { counter := 30, nodes := [(1, nC7), (21, nNewC7), (22, nPred)],
    nextNode := 23, menus := [(0, mC7)], nextMenu := 1,
    gioMenus := [(1, []), (2, [])], nextGio := 3,
    actions := [], nextAction := 0 }

/-- C7 (counterexample): the claim quantifies over every item; when the
new item is a `Predefined` node, inserting it at index 0 into an
attached container (a submenu or a root menu) hits the `todo!()` arm of
`make_gtk_menu_item` and panics instead of producing the claimed
display order. -/
theorem c7_insert_counterexample :
    (MenuChild.add_menu_item 2 1 22 (.insert 0) stC7).is_panicked = true ∧
      (Menu.add_menu_item 2 0 22 (.insert 0) stC7).is_panicked = true := by
  constructor
  · decide
  · decide


/-- **C7** (amended): for a container holding children
`[old0, old1, old2]` — a submenu node or a root menu — inserting a new
item at index 0 yields the order `[new, old0, old1, old2]` in the
logical children sequence, and every backend container already attached
to this container receives the new backend item at the front
(`it :: l`); appending yields the item at the end in both
(`l ++ [it]`).  This holds provided materializing the new item cannot
hit the `Predefined` `todo!()` panic (the `goodNode` hypotheses) and
the attachments are well-formed backend references. -/
theorem c7_insert_ordering {fuel : Nat} (st : St)
    (selfRef menuRef itemRef o0 o1 o2 p0 p1 p2 : Nat)
    (n : MenuChild) (m : Menu)
    (hn : afind st.nodes selfRef = some n)
    (hch : n.children = [o0, o1, o2])
    (hm : afind st.menus menuRef = some m)
    (hmch : m.children = [p0, p1, p2])
    (hinstN : ∀ g ∈ instElems n.instances, ∃ gid ap mr, g.gtkId = some gid ∧
      g.appRef = some ap ∧ g.menuRef = some mr ∧ mr < st.nextGio ∧
      (afind st.gioMenus mr).isSome = true)
    (hpairN : ((instElems n.instances).map GtkMenuChild.menuRef).Pairwise (· ≠ ·))
    (hinstM : ∀ e ∈ m.instances, e.2.menu < st.nextGio ∧
      (afind st.gioMenus e.2.menu).isSome = true)
    (hpairM : (m.instances.map (fun e => e.2.menu)).Pairwise (· ≠ ·))
    (hgoodI : goodNode
      (setNode selfRef { n with children := [itemRef, o0, o1, o2] } st)
      fuel itemRef = true)
    (hgoodA : goodNode
      (setNode selfRef { n with children := [o0, o1, o2, itemRef] } st)
      fuel itemRef = true)
    (hgood0 : goodNode st fuel itemRef = true) :
    (∃ st', MenuChild.add_menu_item fuel selfRef itemRef (.insert 0) st =
        .ok () st' ∧
      (∃ n', afind st'.nodes selfRef = some n' ∧
        n'.children = [itemRef, o0, o1, o2]) ∧
      (∀ g ∈ instElems n.instances, ∀ mr, g.menuRef = some mr →
        ∃ it l, afind st.gioMenus mr = some l ∧
          afind st'.gioMenus mr = some (it :: l))) ∧
    (∃ st', MenuChild.add_menu_item fuel selfRef itemRef .append st =
        .ok () st' ∧
      (∃ n', afind st'.nodes selfRef = some n' ∧
        n'.children = [o0, o1, o2, itemRef]) ∧
      (∀ g ∈ instElems n.instances, ∀ mr, g.menuRef = some mr →
        ∃ it l, afind st.gioMenus mr = some l ∧
          afind st'.gioMenus mr = some (l ++ [it]))) ∧
    (∃ st', Menu.add_menu_item fuel menuRef itemRef (.insert 0) st =
        .ok () st' ∧
      (∃ m', afind st'.menus menuRef = some m' ∧
        m'.children = [itemRef, p0, p1, p2]) ∧
      (∀ e ∈ m.instances, ∃ it l, afind st.gioMenus e.2.menu = some l ∧
        afind st'.gioMenus e.2.menu = some (it :: l))) ∧
    (∃ st', Menu.add_menu_item fuel menuRef itemRef .append st =
        .ok () st' ∧
      (∃ m', afind st'.menus menuRef = some m' ∧
        m'.children = [p0, p1, p2, itemRef]) ∧
      (∀ e ∈ m.instances, ∃ it l, afind st.gioMenus e.2.menu = some l ∧
        afind st'.gioMenus e.2.menu = some (l ++ [it]))) := by
  refine ⟨?_, ?_, ?_, ?_⟩
  · obtain ⟨st', h1, h2, h3⟩ := menuchild_add_exact (.insert 0) st
      (setNode selfRef { n with children := [itemRef, o0, o1, o2] } st)
      selfRef itemRef n [itemRef, o0, o1, o2] hn (by rw [hch]; rfl) rfl
      hinstN hpairN hgoodI
    refine ⟨st', h1, h2, ?_⟩
    intro g hg mr hmr
    obtain ⟨it, l, hl, hfin⟩ := h3 g hg mr hmr
    rw [gio_op_apply_insert_zero] at hfin
    exact ⟨it, l, hl, hfin⟩
  · obtain ⟨st', h1, h2, h3⟩ := menuchild_add_exact .append st
      (setNode selfRef { n with children := [o0, o1, o2, itemRef] } st)
      selfRef itemRef n [o0, o1, o2, itemRef] hn (by rw [hch]; rfl) rfl
      hinstN hpairN hgoodA
    exact ⟨st', h1, h2, h3⟩
  · obtain ⟨st', h1, h2, h3⟩ := menu_add_exact (.insert 0) st
      (setMenu menuRef { m with children := [itemRef, p0, p1, p2] } st)
      menuRef itemRef m [itemRef, p0, p1, p2] hm (by rw [hmch]; rfl) rfl
      hinstM hpairM
      (by
        rw [@goodNode_congr st
          (setMenu menuRef { m with children := [itemRef, p0, p1, p2] } st)
          rfl rfl]
        exact hgood0)
    refine ⟨st', h1, ?_, ?_⟩
    · obtain ⟨m', hm', hc', _⟩ := h2
      exact ⟨m', hm', hc'⟩
    · intro e he
      obtain ⟨it, l, hl, hfin⟩ := h3 e he
      rw [gio_op_apply_insert_zero] at hfin
      exact ⟨it, l, hl, hfin⟩
  · obtain ⟨st', h1, h2, h3⟩ := menu_add_exact .append st
      (setMenu menuRef { m with children := [p0, p1, p2, itemRef] } st)
      menuRef itemRef m [p0, p1, p2, itemRef] hm (by rw [hmch]; rfl) rfl
      hinstM hpairM
      (by
        rw [@goodNode_congr st
          (setMenu menuRef { m with children := [p0, p1, p2, itemRef] } st)
          rfl rfl]
        exact hgood0)
    refine ⟨st', h1, ?_, h3⟩
    obtain ⟨m', hm', hc', _⟩ := h2
    exact ⟨m', hm', hc'⟩


/-- Witness for `c7_insert_ordering` at the concrete state `stC7`:
inserting the fresh plain node `21` at index 0 of the attached submenu
node `1` (children `[10, 11, 12]`) and of the attached root menu `0`. -/
theorem c7_insert_ordering_witness :
    (∃ st', MenuChild.add_menu_item 2 1 21 (.insert 0) stC7 = .ok () st' ∧
      (∃ n', afind st'.nodes 1 = some n' ∧
        n'.children = [21, 10, 11, 12]) ∧
      (∀ g ∈ instElems nC7.instances, ∀ mr, g.menuRef = some mr →
        ∃ it l, afind stC7.gioMenus mr = some l ∧
          afind st'.gioMenus mr = some (it :: l))) ∧
    (∃ st', MenuChild.add_menu_item 2 1 21 .append stC7 = .ok () st' ∧
      (∃ n', afind st'.nodes 1 = some n' ∧
        n'.children = [10, 11, 12, 21]) ∧
      (∀ g ∈ instElems nC7.instances, ∀ mr, g.menuRef = some mr →
        ∃ it l, afind stC7.gioMenus mr = some l ∧
          afind st'.gioMenus mr = some (l ++ [it]))) ∧
    (∃ st', Menu.add_menu_item 2 0 21 (.insert 0) stC7 = .ok () st' ∧
      (∃ m', afind st'.menus 0 = some m' ∧
        m'.children = [21, 10, 11, 12]) ∧
      (∀ e ∈ mC7.instances, ∃ it l, afind stC7.gioMenus e.2.menu = some l ∧
        afind st'.gioMenus e.2.menu = some (it :: l))) ∧
    (∃ st', Menu.add_menu_item 2 0 21 .append stC7 = .ok () st' ∧
      (∃ m', afind st'.menus 0 = some m' ∧
        m'.children = [10, 11, 12, 21]) ∧
      (∀ e ∈ mC7.instances, ∃ it l, afind stC7.gioMenus e.2.menu = some l ∧
        afind st'.gioMenus e.2.menu = some (l ++ [it]))) :=
  @c7_insert_ordering 2 stC7 1 0 21 10 11 12 10 11 12 nC7 mC7
    rfl rfl rfl rfl
    (by
      intro g hg
      have hgeq : g = GtkMenuChild.submenu 6 gSubC7 1 0 := by
        simpa [nC7, instElems] using hg
      subst hgeq
      exact ⟨6, 0, 1, rfl, rfl, rfl, by decide, rfl⟩)
    (by simp [nC7, instElems])
    (by decide)
    (by simp [mC7])
    (by decide) (by decide) (by decide)


/-! ## Claim C9: context menus and identity stability

Distinctness of auto-generated ids reduces to injectivity of the
decimal rendering `toString : Nat → String`, proved here through the
decimal value of a digit list. -/

/-- The numeric value of a decimal digit character. -/
def dval (c : Char) : Nat := c.toNat - 48

/-- The numeric value of a decimal digit string. -/
def listVal (cs : List Char) : Nat := cs.foldl (fun a c => a * 10 + dval c) 0

theorem dval_digitChar : ∀ d, d < 10 → dval (Nat.digitChar d) = d := by decide

theorem foldl_acc (ds : List Char) :
    ∀ a : Nat, ds.foldl (fun a c => a * 10 + dval c) a =
      a * 10 ^ ds.length + listVal ds := by
  induction ds with
  | nil => intro a; simp [listVal]
  | cons c ds ih =>
    intro a
    show ds.foldl _ (a * 10 + dval c) = _
    rw [ih (a * 10 + dval c)]
    have h0 : listVal (c :: ds) = dval c * 10 ^ ds.length + listVal ds := by
      show ds.foldl _ (0 * 10 + dval c) = _
      rw [ih (0 * 10 + dval c)]
      ring
    rw [h0, List.length_cons]
    ring

theorem tdc_val : ∀ fuel n ds, n < fuel →
    listVal (Nat.toDigitsCore 10 fuel n ds) = n * 10 ^ ds.length + listVal ds := by
  intro fuel
  induction fuel with
  | zero => intro n ds h; omega
  | succ fuel ih =>
    intro n ds h
    have hstep : Nat.toDigitsCore 10 (fuel+1) n ds =
        if n / 10 = 0 then (n % 10).digitChar :: ds
        else Nat.toDigitsCore 10 fuel (n / 10) ((n % 10).digitChar :: ds) := by
      conv_lhs => rw [Nat.toDigitsCore]
    rw [hstep]
    have hmod : n % 10 < 10 := Nat.mod_lt _ (by omega)
    by_cases h0 : n / 10 = 0
    · rw [if_pos h0]
      have hn : n < 10 := by omega
      have hv : listVal ((n % 10).digitChar :: ds) =
          (n % 10) * 10 ^ ds.length + listVal ds := by
        show ds.foldl _ (0 * 10 + dval (n % 10).digitChar) = _
        rw [foldl_acc, dval_digitChar _ hmod]
        ring
      rw [hv, Nat.mod_eq_of_lt hn]
    · rw [if_neg h0]
      have hlt : n / 10 < fuel := by omega
      rw [ih (n / 10) _ hlt]
      have hv : listVal ((n % 10).digitChar :: ds) =
          (n % 10) * 10 ^ ds.length + listVal ds := by
        show ds.foldl _ (0 * 10 + dval (n % 10).digitChar) = _
        rw [foldl_acc, dval_digitChar _ hmod]
        ring
      rw [hv, List.length_cons, pow_succ]
      conv_rhs => rw [← Nat.div_add_mod n 10]
      ring

theorem listVal_toDigits (n : Nat) : listVal (Nat.toDigits 10 n) = n := by
  unfold Nat.toDigits
  rw [tdc_val (n+1) n [] (by omega)]
  simp [listVal]

/-- `toString : Nat → String` is injective: the decimal value of the
rendered digit list recovers the number. -/
theorem toString_inj {n m : Nat} (h : toString n = toString m) : n = m := by
  have h2 : (Nat.toDigits 10 n).asString = (Nat.toDigits 10 m).asString := h
  have h3 : Nat.toDigits 10 n = Nat.toDigits 10 m := congrArg String.data h2
  have h4 := listVal_toDigits n
  rw [h3, listVal_toDigits] at h4
  omega

/-- The children loop of `show_context_menu_for_gtk_window` succeeds
under the container invariant (each `add_menu_item_with_id` result is
discarded, but under the invariant each in fact succeeds). -/
theorem ctx_items_loop_ok {fuel : Nat} {lo c0 mr0 r : Nat} (hlo : lo ≤ mr0) :
    ∀ (cs : List Nat) (st : St),
      SelfInstInv st r c0 mr0 →
      GioPresent st mr0 →
      c0 < st.counter →
      (∀ c ∈ cs, goodNode st fuel c = true) →
      ∃ st', ctx_items_loop fuel r c0 cs st = .ok () st' ∧
        PresB lo st st' := by
  intro cs
  induction cs with
  | nil =>
    intro st _ _ _ _
    exact ⟨st, rfl, PresB.pb_refl lo st⟩
  | cons c cs ih =>
    intro st hq hr hc0 hcs
    unfold ctx_items_loop
    obtain ⟨st1, hadd, hp1, hr1, _⟩ :=
      add_with_id_ok (make_ok fuel) hlo hq hr (hcs c (by simp))
    rw [hadd]
    obtain ⟨st', hloop, hp2⟩ := ih st1
      (SelfInstInv_mono hp1.toNodesPres hc0 hq)
      hr1
      (lt_of_lt_of_le hc0 hp1.counter_le)
      (fun c2 hc2 => goodNode_mono hp1.toNodesPres fuel c2 (hcs c2 (by simp [hc2])))
    exact ⟨st', hloop, hp1.pb_trans hp2⟩


/-- **C9** (amended): (a) `show_context_menu_for_gtk_window` returns
`false` and changes nothing when the window has no application;
(b) when the window has an application and this submenu's popup
instance is not yet cached, the call builds it, succeeds with `true`,
and registers the popup backend instance under `ctx_menu_id` — provided
the children subtrees contain no `Predefined` node (the `goodNode`
hypotheses) and the recorded instances are well-formed backend
references; (c) an item handle created with an explicit id carries
exactly that id; (d) two check items created in sequence without an
explicit id receive two distinct (consecutive-counter) ids. -/
theorem c9_show_context_menu_and_ids {fuel : Nat} (st st1 : St)
    (selfRef : Nat) (w w0 : Window) (app : Nat) (n : MenuChild)
    (hw0 : w0.app = Option.none)
    (hn : afind st.nodes selfRef = some n)
    (htype : n.type_ = MenuItemType.submenu)
    (happ : w.app = some app)
    (hcache : afind n.instances n.ctxMenuId = Option.none)
    (hgid : ∀ g ∈ instElems n.instances, ∃ gid, g.gtkId = some gid ∧
      gid ≠ n.ctxMenuId)
    (hctxlt : n.ctxMenuId < st.counter)
    (hst1 : st1 = setNode selfRef
      { n with instances := aset n.instances n.ctxMenuId ([GtkMenuChild.contextMenu n.ctxMenuId st.nextGio app]) }
      { st with gioMenus := aset st.gioMenus st.nextGio [],
                nextGio := st.nextGio + 1 })
    (hch : ∀ c ∈ n.children, goodNode st1 fuel c = true) :
    (∀ st0 : St, MenuChild.show_context_menu_for_gtk_window fuel selfRef w0
      st0 = .ok false st0) ∧
    (∃ st' w', MenuChild.show_context_menu_for_gtk_window fuel selfRef w st =
        .ok true st' ∧
      ∃ n2, afind st'.nodes selfRef = some n2 ∧
        afind n2.instances n.ctxMenuId =
          some (GtkMenuChild.contextMenu n.ctxMenuId st.nextGio app :: w')) ∧
    (∀ idv text e c acc st0,
      ((CheckMenuItem.with_id idv text e c acc st0).1).id = idv) ∧
    (∀ text e c acc st0,
      ((CheckMenuItem.new text e c acc st0).1).id ≠
        ((CheckMenuItem.new text e c acc
          (CheckMenuItem.new text e c acc st0).2).1).id) := by
  refine ⟨?_, ?_, ?_, ?_⟩
  · intro st0
    unfold MenuChild.show_context_menu_for_gtk_window
    rw [hw0]
  · unfold MenuChild.show_context_menu_for_gtk_window getNode
    rw [happ]
    dsimp only [Res.bind]
    rw [hn]
    dsimp only [Res.bind]
    rw [hcache]
    dsimp only [Res.bind]
    unfold gioNewMenu
    dsimp only [Res.bind]
    rw [← hst1]
    have hn1 : afind st1.nodes selfRef = some { n with instances := aset n.instances n.ctxMenuId ([GtkMenuChild.contextMenu n.ctxMenuId st.nextGio app]) } := by
      rw [hst1]
      exact afind_aset_self _ _ _
    rw [hn1]
    dsimp only [Res.bind]
    have hinv : SelfInstInv st1 selfRef n.ctxMenuId st.nextGio := by
      refine ⟨_, hn1, htype, ?_⟩
      intro g hg
      rcases instElems_aset_sub hg with hnew | hold
      · have : g = GtkMenuChild.contextMenu n.ctxMenuId st.nextGio app := by
          simpa using hnew
        subst this
        exact ⟨⟨n.ctxMenuId, rfl⟩, fun _ => ⟨rfl, app, rfl⟩⟩
      · obtain ⟨gid, hgid2, hne⟩ := hgid g hold
        refine ⟨⟨gid, hgid2⟩, fun heq => ?_⟩
        rw [hgid2] at heq
        injection heq with heq
        exact absurd heq hne
    have hpresent : GioPresent st1 st.nextGio := by
      constructor
      · show (afind st1.gioMenus st.nextGio).isSome = true
        rw [hst1]
        show (afind (aset st.gioMenus st.nextGio []) st.nextGio).isSome = true
        rw [afind_aset_self]
        rfl
      · show st.nextGio < st1.nextGio
        rw [hst1]
        show st.nextGio < st.nextGio + 1
        omega
    have hc0 : n.ctxMenuId < st1.counter := by
      rw [hst1]
      exact hctxlt
    obtain ⟨st2, hloop, hp2⟩ := ctx_items_loop_ok (le_refl st.nextGio)
      n.children st1 hinv hpresent hc0 hch
    rw [hloop]
    dsimp only [Res.bind]
    obtain ⟨n2, hn2, ht2, hch2, hx2, hi2⟩ := hp2.nodes_shape selfRef _ hn1
    rw [hn2]
    dsimp only [Res.bind]
    obtain ⟨w', hw', _⟩ := (hi2 htype).2 n.ctxMenuId
      [GtkMenuChild.contextMenu n.ctxMenuId st.nextGio app]
      (afind_aset_self _ _ _)
    rw [hx2]
    rw [hw']
    exact ⟨st2, w', rfl, n2, hn2, hw'⟩
  · intro idv text e c acc st0
    rfl
  · intro text e c acc st0 h
    have h2 : toString st0.counter = toString (st0.counter + 1) := h
    have := toString_inj h2
    omega


/-- A submenu node used as a context menu whose single logical child is
the `Predefined` node `22`. -/
def nCtx9 : MenuChild :=
  { id := "ctx", text := "Ctx", enabled := true, accelerator := Option.none,
    checked := false, icon := Option.none, type_ := .submenu,
    predefinedItemKind := Option.none, instances := [], ctxMenuId := 4,
    children := [22] }

/-- A state with the context submenu `nCtx9` (ref `1`), a plain leaf
node (ref `21`) and a `Predefined` node (ref `22`). -/
def stC9 : St :=
  { counter := 30, nodes := [(1, nCtx9), (21, nNewC7), (22, nPred)],
    nextNode := 23, menus := [], nextMenu := 0, gioMenus := [], nextGio := 0,
    actions := [], nextAction := 0 }

/-- The same state with the context submenu's child being the plain
leaf instead. -/
def stC9ok : St :=
  { stC9 with
    nodes := [(1, { nCtx9 with children := [21] }), (21, nNewC7), (22, nPred)] }

/-- A window with an application. -/
def wC9 : Window := ⟨9, some 0⟩

/-- A window without an application. -/
def wC9n : Window := ⟨9, Option.none⟩

/-- C9 (counterexample): the claim says `show_context_menu` returns
`true` whenever the window has an application; when the submenu's
children contain a `Predefined` node, materializing the popup hits the
`todo!()` arm of `make_gtk_menu_item` and the call panics instead of
returning `true`. -/
theorem c9_context_menu_counterexample :
    wC9.app.isSome = true ∧
      (MenuChild.show_context_menu_for_gtk_window 2 1 wC9 stC9).is_panicked =
        true := by
  constructor
  · rfl
  · decide

/-- Witness for `c9_show_context_menu_and_ids` at the concrete state
`stC9ok` (context submenu over one plain leaf child). -/
theorem c9_show_context_menu_witness :
    (∀ st0 : St, MenuChild.show_context_menu_for_gtk_window 2 1 wC9n st0 =
      .ok false st0) ∧
    (∃ st' w', MenuChild.show_context_menu_for_gtk_window 2 1 wC9 stC9ok =
        .ok true st' ∧
      ∃ n2, afind st'.nodes 1 = some n2 ∧
        afind n2.instances nCtx9.ctxMenuId =
          some (GtkMenuChild.contextMenu nCtx9.ctxMenuId stC9ok.nextGio 0 ::
            w')) ∧
    (∀ idv text e c acc st0,
      ((CheckMenuItem.with_id idv text e c acc st0).1).id = idv) ∧
    (∀ text e c acc st0,
      ((CheckMenuItem.new text e c acc st0).1).id ≠
        ((CheckMenuItem.new text e c acc
          (CheckMenuItem.new text e c acc st0).2).1).id) :=
  @c9_show_context_menu_and_ids 2 stC9ok _ 1 wC9 wC9n 0
    { nCtx9 with children := [21] } rfl rfl rfl rfl rfl
    (by intro g hg; simp [instElems, nCtx9] at hg) (by decide) rfl (by decide)

end Minit
